import Mathlib

/-!
Shallow embedding of the decision logic of `report0422.py`
(`EarningsReversalStrategy`): candidate selection, capital allocation,
order placement with price-derivation fallback, cooldown / duplicate-trade
bookkeeping, and the position monitors.  External I/O (IB API, yfinance,
files, logging) is modelled by an environment record `MarketEnv` whose
fields hold the values those calls would return; mutable object state
(`self.positions`, `self.stop_loss_prices`, `self.last_buy_time`,
`self.price_cache`, `self.trade_history`) is threaded explicitly through a
`Strategy` record, together with a ghost trace `submitted` of the orders
handed to `ib.placeOrder`.  Prices and money amounts are rationals; Python
`int(x)` on the nonnegative quantities involved is `Rat.floor`.
-/

namespace Report0422

/-- Trade side; the strings `'BUY'` / `'SELL'` of the source. -/
inductive Action where
  | BUY
  | SELL
deriving DecidableEq, Repr

abbrev Symbol := String

/-- One row of the trade history produced by `record_trade` (the unused
`time` column is dropped; `date` is a calendar-day ordinal). -/
structure TradeRecord where
  date : Int
  symbol : Symbol
  action : Action
  quantity : ℚ
  price : ℚ
  value : ℚ
deriving DecidableEq, Repr

/-- One call to `ib.placeOrder` (ghost record of submissions). -/
structure OrderReq where
  symbol : Symbol
  action : Action
  quantity : Int
  reason : String
deriving DecidableEq, Repr

/-- The mutable state of `EarningsReversalStrategy` that the claims are
about, plus the ghost submission trace. -/
structure Strategy where
  positions : List (Symbol × ℚ)
  stop_loss_prices : List (Symbol × ℚ)
  last_buy_time : List (Symbol × ℚ)
  price_cache : List (Symbol × ℚ)
  trade_history : List TradeRecord
  submitted : List OrderReq
deriving Repr

/-- Configuration fixed at `__init__`: `cooldown_seconds` and
`stop_loss_percent` (`max_positions` is hard-coded to 20 in the source). -/
structure Config where
  cooldown_seconds : ℚ
  stop_loss_percent : ℚ

/-- Python dict assignment `m[k] = v`, observed through `List.lookup`. -/
def dict_set (m : List (Symbol × ℚ)) (k : Symbol) (v : ℚ) : List (Symbol × ℚ) :=
  (k, v) :: m.filter (fun p => p.1 ≠ k)

/-- Everything `datetime.now()` / `time.time()` return plus the results of
the broker / market-data / file calls made during one cycle. -/
structure MarketEnv where
  /-- `qualifyContracts` succeeds inside `place_order`. -/
  qualify : Symbol → Bool
  /-- the IB branch of `get_latest_price` raises no exception. -/
  ib_data_ok : Symbol → Bool
  last : Symbol → ℚ
  close : Symbol → ℚ
  bid : Symbol → ℚ
  ask : Symbol → ℚ
  /-- last daily close from `yf.Ticker(...).history(period="1d")`; `none` = empty frame. -/
  yf_close : Symbol → Option ℚ
  /-- `trade.orderStatus.status` after the polling loop. -/
  order_status : Symbol → Action → String
  order_filled : Symbol → Action → ℚ
  avg_fill_price : Symbol → Action → ℚ
  /-- `ib.portfolio()` snapshot, as (symbol, signed quantity). -/
  portfolio : List (Symbol × ℚ)
  /-- the `NetLiquidation`/USD account tag (0 when absent or unparsable). -/
  net_liquidation : ℚ
  /-- contents of today's `trades_*.csv` read by `load_trade_history`. -/
  stored_history : List TradeRecord
  /-- earnings date per held symbol from `self.earnings_data`. -/
  earnings_date : Symbol → Option Int
  /-- association list symbol ↦ computed pre-earnings return: the
  `valid_returns` mapping that the data-gathering stages of
  `select_stocks` produce (external I/O summarised as an input). -/
  valid_returns : List (Symbol × ℚ)
  /-- earnings data present or successfully (re)loaded at the top of `run`. -/
  earnings_data_ok : Bool
  /-- `datetime.now().date()` as day ordinal (days since 1970-01-01). -/
  today : Int
  /-- `datetime.now().time()` in minutes since midnight. -/
  time_min : ℚ
  /-- `time.time()`. -/
  epoch : ℚ

/-- Day ordinal of a Gregorian date (days since 1970-01-01), for `y ≥ 1`. -/
def civil_to_days (y m d : Nat) : Int :=
  let y' := if m ≤ 2 then y - 1 else y
  let era := y' / 400
  let yoe := y' % 400
  let mp := (m + 9) % 12
  let doy := (153 * mp + 2) / 5 + d - 1
  let doe := yoe * 365 + yoe / 4 - yoe / 100 + doy
  (↑(era * 146097 + doe) : Int) - 719468

/-- `date.weekday()`: Monday = 0 … Sunday = 6 (1970-01-01 was a Thursday). -/
def weekday (date : Int) : Int := (date + 3) % 7

/-- The hard-coded `us_holidays_2025` list of `is_trading_day`. -/
def us_holidays_2025 : List Int :=
  [civil_to_days 2025 1 1, civil_to_days 2025 1 20, civil_to_days 2025 2 17,
   civil_to_days 2025 4 18, civil_to_days 2025 5 26, civil_to_days 2025 7 4,
   civil_to_days 2025 9 1, civil_to_days 2025 11 27, civil_to_days 2025 12 25]

/-- `is_trading_day`: not a weekend, not one of the listed holidays. -/
def is_trading_day (date : Int) : Bool :=
  if 5 ≤ weekday date then false
  else if us_holidays_2025.contains date then false
  else true

/-- `can_trade_now`: trading day and inside one of the 4:00–9:30,
9:30–16:00, 16:00–20:00 windows (times in minutes). -/
def can_trade_now (env : MarketEnv) : Bool × String :=
  if !is_trading_day env.today then (false, "market closed")
  else if 240 ≤ env.time_min ∧ env.time_min < 570 then (true, "pre-market")
  else if 570 ≤ env.time_min ∧ env.time_min < 960 then (true, "regular")
  else if 960 ≤ env.time_min ∧ env.time_min < 1200 then (true, "after-hours")
  else (false, "off-hours")

/-- The `is_regular_hours` test of `place_order` / `execute_trades`:
9:30 ≤ t ≤ 16:00 on a weekday. -/
def is_regular_hours (env : MarketEnv) : Bool :=
  decide ((570 ≤ env.time_min ∧ env.time_min ≤ 960) ∧ weekday env.today < 5)

/-- `check_stop_loss`: a stop price is stored and the current price is at
or below it. -/
def check_stop_loss (st : Strategy) (symbol : Symbol) (current_price : ℚ) : Bool :=
  match st.stop_loss_prices.lookup symbol with
  | some sl => decide (current_price ≤ sl)
  | none => false

/-- `can_buy_again`: no recorded buy, or the cooldown has elapsed. -/
def can_buy_again (cfg : Config) (env : MarketEnv) (st : Strategy) (symbol : Symbol) : Bool :=
  match st.last_buy_time.lookup symbol with
  | none => true
  | some t => decide (cfg.cooldown_seconds ≤ env.epoch - t)

/-- `is_traded_today`: successive filters of the in-memory trade history by
today's date, the symbol, and (when given) the action. -/
def is_traded_today (env : MarketEnv) (st : Strategy) (symbol : Symbol)
    (action : Option Action) : Bool :=
  if st.trade_history.isEmpty then false
  else
    let today_trades := st.trade_history.filter (fun t => decide (t.date = env.today))
    if today_trades.isEmpty then false
    else
      let symbol_trades := today_trades.filter (fun t => decide (t.symbol = symbol))
      if symbol_trades.isEmpty then false
      else
        match action with
        | some a => !(symbol_trades.filter (fun t => decide (t.action = a))).isEmpty
        | none => true

/-- `get_latest_price`: cached value if present, else last trade → close →
bid/ask midpoint (midpoint only when both sides are positive), cached and
returned when positive; else the yfinance daily close (returned as-is);
else 0.  Returns the price and the state with the updated cache. -/
def get_latest_price (env : MarketEnv) (st : Strategy) (symbol : Symbol)
    (use_yfinance : Bool) : ℚ × Strategy :=
  match st.price_cache.lookup symbol with
  | some p => (p, st)
  | none =>
    let ib_price : ℚ :=
      if env.ib_data_ok symbol then
        let price := env.last symbol
        let price := if price ≤ 0 then env.close symbol else price
        let price := if price ≤ 0 ∧ 0 < env.bid symbol ∧ 0 < env.ask symbol
                     then (env.bid symbol + env.ask symbol) / 2 else price
        price
      else 0
    if 0 < ib_price then
      (ib_price, { st with price_cache := dict_set st.price_cache symbol ib_price })
    else if use_yfinance then
      match env.yf_close symbol with
      | some c => (c, { st with price_cache := dict_set st.price_cache symbol c })
      | none => (0, st)
    else (0, st)

/-- `place_order`: validate the quantity, qualify the contract, derive a
reference price, submit (recorded on the ghost trace), then on a BUY with
positive filled quantity update `last_buy_time` and `stop_loss_prices`
from `execution_price = avgFillPrice if avgFillPrice > 0 else reference
price`; success is `status == 'Filled'` or any positive fill. -/
def place_order (cfg : Config) (env : MarketEnv) (st : Strategy) (symbol : Symbol)
    (action : Action) (quantity : ℚ) (reason : String) (use_limit_price : Bool) :
    Bool × Strategy :=
  if quantity ≤ 0 then (false, st)
  else
    let q : Int := quantity.floor
    if q ≤ 0 then (false, st)
    else if !env.qualify symbol then (false, st)
    else
      let pr := get_latest_price env st symbol true
      let current_price := pr.1
      let st := pr.2
      if current_price ≤ 0 then (false, st)
      else
        -- order construction (limit 1% above/below for BUY/SELL outside
        -- regular hours or on request, else market; outsideRth, DAY) does
        -- not affect the observed fields, so only the submission is traced
        let st := { st with submitted := st.submitted ++ [⟨symbol, action, q, reason⟩] }
        let status := env.order_status symbol action
        let filled := env.order_filled symbol action
        let avg_fill_price := env.avg_fill_price symbol action
        let execution_price := if 0 < avg_fill_price then avg_fill_price else current_price
        let st :=
          if action = Action.BUY ∧ 0 < filled then
            { st with
              last_buy_time := dict_set st.last_buy_time symbol env.epoch,
              stop_loss_prices := dict_set st.stop_loss_prices symbol
                (execution_price * (1 - cfg.stop_loss_percent)) }
          else st
        if status = "Filled" then (true, st)
        else if 0 < filled then (true, st)
        else (false, st)

/-- `get_current_positions`: replace `self.positions` with the broker
portfolio snapshot. -/
def get_current_positions (env : MarketEnv) (st : Strategy) : Strategy :=
  { st with positions := env.portfolio }

/-- `record_trade`: append a row (date, symbol, action, quantity, price,
value = quantity × price) to the in-memory history. -/
def record_trade (env : MarketEnv) (st : Strategy) (symbol : Symbol) (action : Action)
    (quantity price : ℚ) : Strategy :=
  { st with trade_history :=
      st.trade_history ++ [⟨env.today, symbol, action, quantity, price, quantity * price⟩] }

/-- `load_trade_history`: replace the in-memory history with today's file. -/
def load_trade_history (env : MarketEnv) (st : Strategy) : Strategy :=
  { st with trade_history := env.stored_history }

/-! ### Candidate selection (`select_stocks`, lines 1528–1689)

A row of `returns_df` is `(index, symbol, pre_earnings_return)`:
the pandas index label assigned when the frame is built from the
`valid_returns` dict (insertion order), kept by `sort_values`. -/

abbrev ReturnRow := Nat × Symbol × ℚ

def row_le (a b : ReturnRow) : Prop := a.2.2 ≤ b.2.2

instance : DecidableRel row_le :=
  fun a b => inferInstanceAs (Decidable (a.2.2 ≤ b.2.2))

/-- `returns_df` after `sort_values('pre_earnings_return')`: the rows of
the `valid_returns` mapping, index labels in insertion order, sorted
ascending by return. -/
def sorted_returns (valid_returns : List (Symbol × ℚ)) : List ReturnRow :=
  List.insertionSort row_le
    (valid_returns.enum.map (fun p => (p.1, p.2.1, p.2.2)))

/-- `returns_df[returns_df['symbol'] == stock].index[0]`: the index label
of the (unique) row carrying `stock`. -/
def stock_index (returns_df : List ReturnRow) (stock : Symbol) : Nat :=
  match returns_df.find? (fun r => decide (r.2.1 = stock)) with
  | some r => r.1
  | none => 0

/-- The candidate pair before overlap resolution, for `m ≥ 2`: midpoint
split when `m < 3`, else bottom and top `max(1, int(m*0.2))` of the
ascending ranking (`int(m*0.2) = m / 5`: exact for every realistic `m`). -/
def pre_candidates (returns_df : List ReturnRow) : List Symbol × List Symbol :=
  let m := returns_df.length
  if m < 3 then
    let mid_point := m / 2
    ((returns_df.take mid_point).map (fun r => r.2.1),
     (returns_df.drop mid_point).map (fun r => r.2.1))
  else
    let bottom_quintile_count := max 1 (m / 5)
    ((returns_df.take bottom_quintile_count).map (fun r => r.2.1),
     (returns_df.drop (m - bottom_quintile_count)).map (fun r => r.2.1))

/-- Overlap resolution (lines 1651–1666): for each stock in both lists,
compute `stock_position = index_label / m` and remove the stock from the
short list when `stock_position < 0.5` (kept as `2·index < m`), else from
the long list.  `list.remove` is `List.erase`. -/
def resolve_overlap (returns_df : List ReturnRow)
    (long_candidates short_candidates : List Symbol) : List Symbol × List Symbol :=
  let m := returns_df.length
  let common_stocks := long_candidates.filter (fun s => decide (s ∈ short_candidates))
  common_stocks.foldl
    (fun p stock =>
      if 2 * stock_index returns_df stock < m
      then (p.1, p.2.erase stock)
      else (p.1.erase stock, p.2))
    (long_candidates, short_candidates)

/-- `select_stocks` from the point where the per-symbol returns are known
(the data-gathering stages are external I/O): classify a single symbol by
sign, otherwise partition, resolve overlaps, truncate to 20, and
force-remove from the long list anything still duplicated. -/
def select_stocks (valid_returns : List (Symbol × ℚ)) : List Symbol × List Symbol :=
  let returns_df := sorted_returns valid_returns
  let m := returns_df.length
  if m < 2 then
    match returns_df with
    | (_, symbol, ret) :: _ => if ret < 0 then ([symbol], []) else ([], [symbol])
    | [] => ([], [])
  else
    let pre := pre_candidates returns_df
    let resolved := resolve_overlap returns_df pre.1 pre.2
    let long_candidates := resolved.1.take 20
    let short_candidates := resolved.2.take 20
    let common_stocks := long_candidates.filter (fun s => decide (s ∈ short_candidates))
    let long_candidates := common_stocks.foldl (fun l stock => l.erase stock) long_candidates
    (long_candidates, short_candidates)

/-! ### One strategy cycle (`execute_trades`, `monitor_positions`,
`check_exit_positions`, `run`) -/

/-- Body of one iteration of the entry loops of `execute_trades`
(lines 1952–2058; the two loops are textually parallel, differing in the
held-position sign test, the action, and the reason). -/
def entry_step (cfg : Config) (env : MarketEnv) (capital_per_stock : ℚ)
    (use_limit : Bool) (action : Action) (reason : String) (st : Strategy)
    (symbol : Symbol) : Strategy :=
  if symbol = "" then st
  else
    let held : Bool :=
      match st.positions.lookup symbol with
      | some q => match action with
                  | Action.BUY => decide (0 < q)
                  | Action.SELL => decide (q < 0)
      | none => false
    if held then st
    else if is_traded_today env st symbol (some action) then st
    else if !can_buy_again cfg env st symbol then st
    else
      let pr := get_latest_price env st symbol true
      let current_price := pr.1
      let st := pr.2
      if current_price ≤ 0 then st
      else
        let quantity : Int := (capital_per_stock / current_price).floor
        if quantity ≤ 0 then st
        else
          let res := place_order cfg env st symbol action (quantity : ℚ) reason use_limit
          if res.1 then record_trade env res.2 symbol action (quantity : ℚ) current_price
          else res.2

/-- The entry loop over one candidate list. -/
def entry_loop (cfg : Config) (env : MarketEnv) (capital_per_stock : ℚ)
    (use_limit : Bool) (action : Action) (reason : String) :
    Strategy → List Symbol → Strategy
  | st, [] => st
  | st, symbol :: rest =>
    entry_loop cfg env capital_per_stock use_limit action reason
      (entry_step cfg env capital_per_stock use_limit action reason st symbol) rest

/-- `execute_trades`: session gate, position refresh, net-liquidation
check, 30% capital at 50/50 long/short split divided per candidate,
trade-history reload, then the two entry loops. -/
def execute_trades (cfg : Config) (env : MarketEnv) (st : Strategy)
    (long_stocks short_stocks : List Symbol) : Strategy :=
  if !(can_trade_now env).1 then st
  else
    let st := get_current_positions env st
    if long_stocks.isEmpty ∧ short_stocks.isEmpty then st
    else
      let net_liquidation := env.net_liquidation
      if net_liquidation ≤ 0 then st
      else
        let capital_ratio : ℚ := 3/10
        let long_allocation_ratio : ℚ := 1/2
        let short_allocation_ratio : ℚ := 1/2
        let total_capital := net_liquidation * capital_ratio
        let long_capital := total_capital * long_allocation_ratio
        let short_capital := total_capital * short_allocation_ratio
        let use_limit_order := !is_regular_hours env
        let long_capital_per_stock :=
          if !long_stocks.isEmpty then long_capital / (max long_stocks.length 1 : ℚ) else 0
        let short_capital_per_stock :=
          if !short_stocks.isEmpty then short_capital / (max short_stocks.length 1 : ℚ) else 0
        let st := load_trade_history env st
        let st := entry_loop cfg env long_capital_per_stock use_limit_order
          Action.BUY "earnings-long" st long_stocks
        let st := entry_loop cfg env short_capital_per_stock use_limit_order
          Action.SELL "earnings-short" st short_stocks
        st

/-- Body of one iteration of the stop-loss scan of `monitor_positions`. -/
def monitor_step (cfg : Config) (env : MarketEnv) (st : Strategy)
    (pos : Symbol × ℚ) : Strategy :=
  let pr := get_latest_price env st pos.1 true
  let current_price := pr.1
  let st := pr.2
  if current_price ≤ 0 then st
  else if 0 < pos.2 ∧ check_stop_loss st pos.1 current_price then
    (place_order cfg env st pos.1 Action.SELL |pos.2| "stop-loss" true).2
  else st

def monitor_loop (cfg : Config) (env : MarketEnv) :
    Strategy → List (Symbol × ℚ) → Strategy
  | st, [] => st
  | st, pos :: rest => monitor_loop cfg env (monitor_step cfg env st pos) rest

/-- `monitor_positions`: refresh positions and run the stop-loss scan:
only positions with `quantity > 0` and a stored stop price at or above the
fetched price trigger a closing SELL of `abs(quantity)`. -/
def monitor_positions (cfg : Config) (env : MarketEnv) (st : Strategy) : Strategy :=
  let st := get_current_positions env st
  if st.positions.isEmpty then st
  else monitor_loop cfg env st st.positions

/-- Body of one iteration of the holding-period scan of
`check_exit_positions`. -/
def exit_step (cfg : Config) (env : MarketEnv) (st : Strategy)
    (pos : Symbol × ℚ) : Strategy :=
  match env.earnings_date pos.1 with
  | some ed =>
    if ed + 2 ≤ env.today then
      if 0 < pos.2 then
        (place_order cfg env st pos.1 Action.SELL |pos.2| "holding period end" true).2
      else if pos.2 < 0 then
        (place_order cfg env st pos.1 Action.BUY |pos.2| "holding period end" true).2
      else st
    else st
  | none => st

def exit_loop (cfg : Config) (env : MarketEnv) :
    Strategy → List (Symbol × ℚ) → Strategy
  | st, [] => st
  | st, pos :: rest => exit_loop cfg env (exit_step cfg env st pos) rest

/-- `check_exit_positions`: refresh positions and close any position whose
earnings date lies at least two days in the past. -/
def check_exit_positions (cfg : Config) (env : MarketEnv) (st : Strategy) : Strategy :=
  let st := get_current_positions env st
  if st.positions.isEmpty then st
  else exit_loop cfg env st st.positions

/-- `run`: one full cycle — bail out if no earnings data can be loaded,
else select candidates, execute entries, monitor stop-losses, check the
holding period. -/
def run (cfg : Config) (env : MarketEnv) (st : Strategy) : Bool × Strategy :=
  if !env.earnings_data_ok then (false, st)
  else
    let sel := select_stocks env.valid_returns
    let st := execute_trades cfg env st sel.1 sel.2
    let st := monitor_positions cfg env st
    let st := check_exit_positions cfg env st
    (true, st)

/-! ## Helper lemmas -/

theorem enum_rows_symbols (valid_returns : List (Symbol × ℚ)) :
    (valid_returns.enum.map (fun p : Nat × Symbol × ℚ => (p.1, p.2.1, p.2.2))).map
      (fun r : ReturnRow => r.2.1) = valid_returns.map Prod.fst := by
  rw [List.map_map]
  have h4 : valid_returns.enum.map Prod.snd = valid_returns := List.enum_map_snd _
  calc valid_returns.enum.map ((fun r : ReturnRow => r.2.1) ∘
          (fun p : Nat × Symbol × ℚ => (p.1, p.2.1, p.2.2)))
    = (valid_returns.enum.map Prod.snd).map Prod.fst := by
        rw [List.map_map]; rfl
  _ = valid_returns.map Prod.fst := by rw [h4]

theorem sorted_returns_symbols_perm (valid_returns : List (Symbol × ℚ)) :
    List.Perm ((sorted_returns valid_returns).map (fun r => r.2.1))
      (valid_returns.map Prod.fst) := by
  have h1 : List.Perm (sorted_returns valid_returns)
      (valid_returns.enum.map (fun p => (p.1, p.2.1, p.2.2))) :=
    List.perm_insertionSort _ _
  have h2 := h1.map (fun r : ReturnRow => r.2.1)
  rw [enum_rows_symbols] at h2
  exact h2

theorem sorted_returns_length (valid_returns : List (Symbol × ℚ)) :
    (sorted_returns valid_returns).length = valid_returns.length := by
  have := (sorted_returns_symbols_perm valid_returns).length_eq
  simpa using this

theorem sorted_returns_symbols_nodup {valid_returns : List (Symbol × ℚ)}
    (h : (valid_returns.map Prod.fst).Nodup) :
    ((sorted_returns valid_returns).map (fun r => r.2.1)).Nodup :=
  ((sorted_returns_symbols_perm valid_returns).nodup_iff).mpr h

/-- The two pre-resolution candidate lists are a `take` and a `drop` of the
sorted symbol list at cut points `k ≤ k'`. -/
theorem pre_candidates_take_drop (returns_df : List ReturnRow) :
    ∃ k k', k ≤ k' ∧
      pre_candidates returns_df =
        ((returns_df.map (fun r => r.2.1)).take k,
         (returns_df.map (fun r => r.2.1)).drop k') := by
  unfold pre_candidates
  by_cases h3 : returns_df.length < 3
  · refine ⟨returns_df.length / 2, returns_df.length / 2, le_rfl, ?_⟩
    simp [h3, List.map_take, List.map_drop]
  · refine ⟨max 1 (returns_df.length / 5),
      returns_df.length - max 1 (returns_df.length / 5), ?_, ?_⟩
    · omega
    · simp [h3, List.map_take, List.map_drop]

/-- Disjoint lists have no common stocks, so the resolution fold is the
identity. -/
theorem resolve_overlap_of_disjoint (returns_df : List ReturnRow)
    {long_candidates short_candidates : List Symbol}
    (h : long_candidates.Disjoint short_candidates) :
    resolve_overlap returns_df long_candidates short_candidates =
      (long_candidates, short_candidates) := by
  unfold resolve_overlap
  have hc : long_candidates.filter
      (fun s => decide (s ∈ short_candidates)) = [] := by
    rw [List.filter_eq_nil_iff]
    intro a ha
    simp only [decide_eq_true_eq]
    exact h ha
  rw [hc]
  rfl

/-! ## C1 -/

/-- C1: for every `valid_returns` input with distinct symbols, the long
and short candidate lists returned by `select_stocks` share no symbol and
each has length at most `max_positions = 20`. -/
theorem select_stocks_disjoint_and_bounded (valid_returns : List (Symbol × ℚ))
    (h : (valid_returns.map Prod.fst).Nodup) :
    ((select_stocks valid_returns).1).Disjoint (select_stocks valid_returns).2 ∧
      (select_stocks valid_returns).1.length ≤ 20 ∧
      (select_stocks valid_returns).2.length ≤ 20 := by
  unfold select_stocks
  by_cases hm : (sorted_returns valid_returns).length < 2
  · simp only [hm, if_true]
    match (sorted_returns valid_returns) with
    | [] => simp [List.Disjoint]
    | (i, symbol, ret) :: rest =>
      by_cases hr : ret < 0 <;> simp [hr, List.Disjoint]
  · simp only [hm, if_false]
    obtain ⟨k, k', hkk, hpre⟩ :=
      pre_candidates_take_drop (sorted_returns valid_returns)
    have hnd := sorted_returns_symbols_nodup h
    have hdis : (pre_candidates (sorted_returns valid_returns)).1.Disjoint
        (pre_candidates (sorted_returns valid_returns)).2 := by
      rw [hpre]
      exact List.disjoint_take_drop hnd hkk
    rw [resolve_overlap_of_disjoint _ hdis]
    have hdis20 : ((pre_candidates (sorted_returns valid_returns)).1.take 20).Disjoint
        ((pre_candidates (sorted_returns valid_returns)).2.take 20) := by
      intro a ha hb
      exact hdis (List.take_subset _ _ ha) (List.take_subset _ _ hb)
    have hc2 : ((pre_candidates (sorted_returns valid_returns)).1.take 20).filter
        (fun s => decide (s ∈ (pre_candidates (sorted_returns valid_returns)).2.take 20)) = [] := by
      rw [List.filter_eq_nil_iff]
      intro a ha
      simp only [decide_eq_true_eq]
      exact hdis20 ha
    simp only [hc2, List.foldl_nil]
    exact ⟨hdis20, (List.length_take_le _ _), (List.length_take_le _ _)⟩

/-- On an input already sorted ascending by return, `sort_values` keeps
the rows in place. -/
theorem sorted_returns_of_sorted {valid_returns : List (Symbol × ℚ)}
    (hs : (valid_returns.map Prod.snd).Pairwise (· ≤ ·)) :
    sorted_returns valid_returns =
      valid_returns.enum.map (fun p => (p.1, p.2.1, p.2.2)) := by
  apply List.Sorted.insertionSort_eq
  rw [List.Sorted, List.pairwise_map]
  have h1 : valid_returns.Pairwise (fun a b => a.2 ≤ b.2) := (List.pairwise_map).1 hs
  have h2 : (valid_returns.enum.map Prod.snd).Pairwise (fun a b => a.2 ≤ b.2) := by
    rw [List.enum_map_snd]; exact h1
  have h3 := (List.pairwise_map).1 h2
  exact h3.imp (fun h => h)

/-! ## C2 -/

/-- C2: when the `m ≥ 3` symbols with a computed pre-earnings return are
listed in ascending return order, the pre-overlap-resolution long list is
exactly the bottom `max(1, int(m*0.2))` symbols (most negative returns)
and the short list exactly the top `max(1, int(m*0.2))` symbols (most
positive returns). -/
theorem pre_candidates_of_sorted (valid_returns : List (Symbol × ℚ))
    (h3 : 3 ≤ valid_returns.length)
    (hs : (valid_returns.map Prod.snd).Pairwise (· ≤ ·)) :
    pre_candidates (sorted_returns valid_returns) =
      ((valid_returns.map Prod.fst).take (max 1 (valid_returns.length / 5)),
       (valid_returns.map Prod.fst).drop
         (valid_returns.length - max 1 (valid_returns.length / 5))) := by
  have hlen : (sorted_returns valid_returns).length = valid_returns.length :=
    sorted_returns_length valid_returns
  have hsym : (sorted_returns valid_returns).map (fun r : ReturnRow => r.2.1) =
      valid_returns.map Prod.fst := by
    rw [sorted_returns_of_sorted hs, enum_rows_symbols]
  unfold pre_candidates
  rw [hlen]
  have hlt : ¬(valid_returns.length < 3) := by omega
  simp only [hlt, if_false]
  rw [List.map_take, List.map_drop, hsym]

/-- C2 witness: five symbols in ascending return order give the bottom one
long and top one short. -/
theorem pre_candidates_of_sorted_witness :
    (3 ≤ ([("A", (-5 : ℚ)), ("B", -3), ("C", -1), ("D", 2), ("E", 4)] :
        List (Symbol × ℚ)).length) ∧
      pre_candidates (sorted_returns [("A", -5), ("B", -3), ("C", -1), ("D", 2), ("E", 4)]) =
        ((["A", "B", "C", "D", "E"].take 1), (["A", "B", "C", "D", "E"].drop 4)) := by
  refine ⟨by decide, ?_⟩
  have h := pre_candidates_of_sorted
    [("A", -5), ("B", -3), ("C", -1), ("D", 2), ("E", 4)] (by decide) (by decide)
  simpa using h

/-- C1 witness: a concrete five-symbol input satisfies the hypothesis and
the conclusion. -/
theorem select_stocks_disjoint_and_bounded_witness :
    (([("A", (-5 : ℚ)), ("B", -3), ("C", -1), ("D", 2), ("E", 4)].map
        (Prod.fst : Symbol × ℚ → Symbol)).Nodup) ∧
      ((select_stocks [("A", -5), ("B", -3), ("C", -1), ("D", 2), ("E", 4)]).1).Disjoint
        (select_stocks [("A", -5), ("B", -3), ("C", -1), ("D", 2), ("E", 4)]).2 ∧
      (select_stocks [("A", -5), ("B", -3), ("C", -1), ("D", 2), ("E", 4)]).1.length ≤ 20 ∧
      (select_stocks [("A", -5), ("B", -3), ("C", -1), ("D", 2), ("E", 4)]).2.length ≤ 20 :=
  ⟨by decide,
   select_stocks_disjoint_and_bounded
     [("A", -5), ("B", -3), ("C", -1), ("D", 2), ("E", 4)] (by decide)⟩

/-! ## C9 -/

/-- Membership characterisation of `is_traded_today` (helper shared with
the entry-loop proofs). -/
theorem is_traded_today_mem_iff (env : MarketEnv) (st : Strategy) (symbol : Symbol)
    (action : Option Action) :
    is_traded_today env st symbol action = true ↔
      ∃ r ∈ st.trade_history, r.date = env.today ∧ r.symbol = symbol ∧
        (∀ a, action = some a → r.action = a) := by
  unfold is_traded_today
  by_cases h0 : st.trade_history.isEmpty
  · have h0' : st.trade_history = [] := by
      simpa [List.isEmpty_iff] using h0
    simp [h0, h0']
  · simp only [h0, Bool.false_eq_true, if_false]
    by_cases h1 : (st.trade_history.filter (fun t => decide (t.date = env.today))).isEmpty
    · have h1' : ∀ r ∈ st.trade_history, ¬(r.date = env.today) := by
        have := List.isEmpty_iff.mp h1
        rw [List.filter_eq_nil_iff] at this
        intro r hr
        simpa using this r hr
      simp only [h1, if_true]
      constructor
      · intro h; exact absurd h (by simp)
      · rintro ⟨r, hr, hd, -⟩
        exact absurd hd (h1' r hr)
    · simp only [h1, Bool.false_eq_true, if_false]
      by_cases h2 : ((st.trade_history.filter (fun t => decide (t.date = env.today))).filter
          (fun t => decide (t.symbol = symbol))).isEmpty
      · have h2' : ∀ r ∈ st.trade_history, r.date = env.today → ¬(r.symbol = symbol) := by
          have := List.isEmpty_iff.mp h2
          rw [List.filter_eq_nil_iff] at this
          intro r hr hd
          have := this r (List.mem_filter.mpr ⟨hr, by simpa using hd⟩)
          simpa using this
        simp only [h2, if_true]
        constructor
        · intro h; exact absurd h (by simp)
        · rintro ⟨r, hr, hd, hsym, -⟩
          exact absurd hsym (h2' r hr hd)
      · simp only [h2, Bool.false_eq_true, if_false]
        rcases action with _ | a
        · simp only [true_iff]
          have h2'' : (st.trade_history.filter (fun t => decide (t.date = env.today))).filter
              (fun t => decide (t.symbol = symbol)) ≠ [] :=
            fun e => h2 (by simp [e])
          rcases List.exists_mem_of_ne_nil _ h2'' with ⟨r, hr⟩
          rcases List.mem_filter.mp hr with ⟨hr1, hr2⟩
          rcases List.mem_filter.mp hr1 with ⟨hr0, hr3⟩
          exact ⟨r, hr0, by simpa using hr3, by simpa using hr2, by simp⟩
        · constructor
          · intro h
            have hb : (!(((st.trade_history.filter (fun t => decide (t.date = env.today))).filter
                (fun t => decide (t.symbol = symbol))).filter
                  (fun t => decide (t.action = a))).isEmpty) = true := h
            have h' : ((st.trade_history.filter (fun t => decide (t.date = env.today))).filter
                (fun t => decide (t.symbol = symbol))).filter
                  (fun t => decide (t.action = a)) ≠ [] := by
              intro e
              rw [e] at hb
              simp at hb
            rcases List.exists_mem_of_ne_nil _ h' with ⟨r, hr⟩
            rcases List.mem_filter.mp hr with ⟨hr1, hra⟩
            rcases List.mem_filter.mp hr1 with ⟨hr2, hrs⟩
            rcases List.mem_filter.mp hr2 with ⟨hr0, hrd⟩
            refine ⟨r, hr0, by simpa using hrd, by simpa using hrs, ?_⟩
            intro x hx
            cases hx
            simpa using hra
          · rintro ⟨r, hr, hd, hsym, hact⟩
            have hra := hact a rfl
            have hmem : r ∈ ((st.trade_history.filter
                (fun t => decide (t.date = env.today))).filter
                  (fun t => decide (t.symbol = symbol))).filter
                    (fun t => decide (t.action = a)) := by
              exact List.mem_filter.mpr ⟨List.mem_filter.mpr
                ⟨List.mem_filter.mpr ⟨hr, by simpa using hd⟩, by simpa using hsym⟩,
                by simpa using hra⟩
            have hgoal : (!(((st.trade_history.filter
                (fun t => decide (t.date = env.today))).filter
                  (fun t => decide (t.symbol = symbol))).filter
                    (fun t => decide (t.action = a))).isEmpty) = true := by
              simp only [Bool.not_eq_true']
              cases hX : ((st.trade_history.filter
                  (fun t => decide (t.date = env.today))).filter
                    (fun t => decide (t.symbol = symbol))).filter
                      (fun t => decide (t.action = a)) with
              | nil => rw [hX] at hmem; exact absurd hmem (List.not_mem_nil r)
              | cons y ys => rfl
            exact hgoal

/-- C9: `is_traded_today` is true iff the trade history holds a record
with today's date and the given symbol (and the given action, when one is
supplied); records dated any other day never make it true. -/
theorem is_traded_today_iff (env : MarketEnv) (st : Strategy) (symbol : Symbol)
    (action : Option Action) :
    is_traded_today env st symbol action = true ↔
      ∃ r ∈ st.trade_history, r.date = env.today ∧ r.symbol = symbol ∧
        (∀ a, action = some a → r.action = a) :=
  is_traded_today_mem_iff env st symbol action

/-- `is_traded_today` with an action is false exactly when no matching
record of today exists. -/
theorem is_traded_today_some_false_iff (env : MarketEnv) (st : Strategy)
    (symbol : Symbol) (act : Action) :
    is_traded_today env st symbol (some act) = false ↔
      ∀ r ∈ st.trade_history,
        ¬(r.date = env.today ∧ r.symbol = symbol ∧ r.action = act) := by
  rw [← Bool.not_eq_true, is_traded_today_mem_iff env st symbol (some act)]
  constructor
  · intro h r hr hprop
    exact h ⟨r, hr, hprop.1, hprop.2.1, fun a ha => by cases ha; exact hprop.2.2⟩
  · rintro h ⟨r, hr, hd, hs, ha⟩
    exact h r hr ⟨hd, hs, ha act rfl⟩

/-! ## C3 -/

/-- Modelled from the claim's words, for comparison with the source's
`resolve_overlap`: the same overlap resolution, but with the position
computed from the symbol's index in the ascending pre-earnings-return
ranking (its position in the sorted table) rather than the pre-sort pandas
index label. -/
def resolve_overlap_by_rank (returns_df : List ReturnRow)
    (long_candidates short_candidates : List Symbol) : List Symbol × List Symbol :=
  let m := returns_df.length
  let common_stocks := long_candidates.filter (fun s => decide (s ∈ short_candidates))
  common_stocks.foldl
    (fun p stock =>
      if 2 * returns_df.findIdx (fun r => decide (r.2.1 = stock)) < m
      then (p.1, p.2.erase stock)
      else (p.1.erase stock, p.2))
    (long_candidates, short_candidates)

/-- C3 counterexample: with insertion order A(+5%), B(−1%), C(0%) the
sorted ranking is B, C, A, so A sits in the top half of the ranking
(rank 2 of 3) and the claim would keep it in the short list; the code
looks up A's pre-sort index label 0, giving position 0 < 0.5, and keeps A
in the long list instead. -/
theorem resolve_overlap_rank_counterexample :
    resolve_overlap (sorted_returns [("A", 5), ("B", -1), ("C", 0)])
        ["B", "A"] ["C", "A"] = (["B", "A"], ["C"]) ∧
      resolve_overlap_by_rank (sorted_returns [("A", 5), ("B", -1), ("C", 0)])
        ["B", "A"] ["C", "A"] = (["B"], ["C", "A"]) ∧
      (["B", "A"], (["C"] : List Symbol)) ≠ (["B"], ["C", "A"]) := by
  refine ⟨by decide, by decide, by decide⟩

/-- A symbol outside the processed overlap list keeps its membership in
both lists across the resolution fold. -/
theorem fold_pair_mem_frame (cond : Symbol → Prop) [DecidablePred cond]
    (cs : List Symbol) (l s : List Symbol) {x : Symbol} (hx : x ∉ cs) :
    (x ∈ (cs.foldl (fun p stock => if cond stock then (p.1, p.2.erase stock)
        else (p.1.erase stock, p.2)) (l, s)).1 ↔ x ∈ l) ∧
    (x ∈ (cs.foldl (fun p stock => if cond stock then (p.1, p.2.erase stock)
        else (p.1.erase stock, p.2)) (l, s)).2 ↔ x ∈ s) := by
  induction cs generalizing l s with
  | nil => simp
  | cons c rest ih =>
    have hxc : x ≠ c := fun e => hx (e ▸ List.mem_cons_self c rest)
    have hxr : x ∉ rest := fun h => hx (List.mem_cons_of_mem _ h)
    by_cases hc : cond c
    · simp only [List.foldl_cons, if_pos hc]
      have h := ih l (s.erase c) hxr
      rwa [List.mem_erase_of_ne hxc] at h
    · simp only [List.foldl_cons, if_neg hc]
      have h := ih (l.erase c) s hxr
      rwa [List.mem_erase_of_ne hxc] at h

/-- A symbol in the overlap list ends up exactly where its condition
sends it. -/
theorem fold_pair_mem (cond : Symbol → Prop) [DecidablePred cond] :
    ∀ (cs : List Symbol) (l s : List Symbol), cs.Nodup → l.Nodup → s.Nodup →
    ∀ {x : Symbol}, x ∈ cs → x ∈ l → x ∈ s →
    (cond x → x ∈ (cs.foldl (fun p stock => if cond stock then (p.1, p.2.erase stock)
        else (p.1.erase stock, p.2)) (l, s)).1 ∧
      x ∉ (cs.foldl (fun p stock => if cond stock then (p.1, p.2.erase stock)
        else (p.1.erase stock, p.2)) (l, s)).2) ∧
    (¬cond x → x ∉ (cs.foldl (fun p stock => if cond stock then (p.1, p.2.erase stock)
        else (p.1.erase stock, p.2)) (l, s)).1 ∧
      x ∈ (cs.foldl (fun p stock => if cond stock then (p.1, p.2.erase stock)
        else (p.1.erase stock, p.2)) (l, s)).2)
  | [], _, _, _, _, _, _, hx, _, _ => absurd hx (List.not_mem_nil _)
  | c :: rest, l, s, hcs, hl, hs, x, hx, hxl, hxs => by
    have hrest : rest.Nodup := (List.nodup_cons.mp hcs).2
    have hcrest : c ∉ rest := (List.nodup_cons.mp hcs).1
    rcases List.mem_cons.mp hx with he | hxr
    · subst he
      by_cases hc : cond x
      · simp only [List.foldl_cons, if_pos hc]
        have hf := fold_pair_mem_frame cond rest l (s.erase x) hcrest
        refine ⟨fun _ => ⟨hf.1.mpr hxl, fun hmem => ?_⟩, fun hnc => absurd hc hnc⟩
        have := (List.Nodup.mem_erase_iff hs).mp (hf.2.mp hmem)
        exact this.1 rfl
      · simp only [List.foldl_cons, if_neg hc]
        have hf := fold_pair_mem_frame cond rest (l.erase x) s hcrest
        refine ⟨fun hc' => absurd hc' hc, fun _ => ⟨fun hmem => ?_, hf.2.mpr hxs⟩⟩
        have := (List.Nodup.mem_erase_iff hl).mp (hf.1.mp hmem)
        exact this.1 rfl
    · have hxc : x ≠ c := fun e => hcrest (e ▸ hxr)
      by_cases hc : cond c
      · simp only [List.foldl_cons, if_pos hc]
        exact fold_pair_mem cond rest l (s.erase c) hrest hl (hs.erase c) hxr hxl
          ((List.mem_erase_of_ne hxc).mpr hxs)
      · simp only [List.foldl_cons, if_neg hc]
        exact fold_pair_mem cond rest (l.erase c) s hrest (hl.erase c) hs hxr
          ((List.mem_erase_of_ne hxc).mpr hxl) hxs

/-- C3 amended: when a symbol lands in both candidate lists, the
resolution keeps it in the long list and removes it from the short list
iff `2 · i < m` where `i` is the symbol's pre-sort pandas index label
(`returns_df[...].index[0]`, i.e. its position in the insertion order of
the valid-returns mapping), not its rank in the ascending-return order;
otherwise it is removed from the long list and kept in the short list.
(With the candidate lists `select_stocks` actually builds, the overlap
never occurs — see the C1 theorem.) -/
theorem resolve_overlap_uses_presort_index (returns_df : List ReturnRow)
    (long_candidates short_candidates : List Symbol) (stock : Symbol)
    (hl : long_candidates.Nodup) (hs : short_candidates.Nodup)
    (h1 : stock ∈ long_candidates) (h2 : stock ∈ short_candidates) :
    (2 * stock_index returns_df stock < returns_df.length →
      stock ∈ (resolve_overlap returns_df long_candidates short_candidates).1 ∧
      stock ∉ (resolve_overlap returns_df long_candidates short_candidates).2) ∧
    (¬(2 * stock_index returns_df stock < returns_df.length) →
      stock ∉ (resolve_overlap returns_df long_candidates short_candidates).1 ∧
      stock ∈ (resolve_overlap returns_df long_candidates short_candidates).2) := by
  have hcs : (long_candidates.filter
      (fun s => decide (s ∈ short_candidates))).Nodup := hl.filter _
  have hx : stock ∈ long_candidates.filter (fun s => decide (s ∈ short_candidates)) :=
    List.mem_filter.mpr ⟨h1, by simpa using h2⟩
  exact fold_pair_mem (fun stock => 2 * stock_index returns_df stock < returns_df.length)
    _ long_candidates short_candidates hcs hl hs hx h1 h2

/-- C3 witness: the amended rule applied to the concrete overlapping lists
of the counterexample. -/
theorem resolve_overlap_uses_presort_index_witness :
    (2 * stock_index (sorted_returns [("A", 5), ("B", -1), ("C", 0)]) "A" <
        (sorted_returns [("A", 5), ("B", -1), ("C", 0)]).length) ∧
      "A" ∈ (resolve_overlap (sorted_returns [("A", 5), ("B", -1), ("C", 0)])
        ["B", "A"] ["C", "A"]).1 ∧
      "A" ∉ (resolve_overlap (sorted_returns [("A", 5), ("B", -1), ("C", 0)])
        ["B", "A"] ["C", "A"]).2 :=
  ⟨by decide,
   (resolve_overlap_uses_presort_index (sorted_returns [("A", 5), ("B", -1), ("C", 0)])
      ["B", "A"] ["C", "A"] "A" (by decide) (by decide) (by decide) (by decide)).1
     (by decide)⟩

/-! ## Dictionary and price-fetch lemmas -/

theorem dict_set_lookup_self (m : List (Symbol × ℚ)) (k : Symbol) (v : ℚ) :
    (dict_set m k v).lookup k = some v := by
  simp [dict_set, List.lookup]

theorem lookup_filter_ne (m : List (Symbol × ℚ)) (k s : Symbol) (h : s ≠ k) :
    (m.filter (fun p => p.1 ≠ k)).lookup s = m.lookup s := by
  induction m with
  | nil => rfl
  | cons p rest ih =>
    rcases eq_or_ne p.1 k with hp | hp
    · rw [List.filter_cons]
      simp only [ne_eq, hp, not_true_eq_false, decide_False, Bool.false_eq_true, if_false]
      rw [ih]
      have hsp : (s == p.1) = false := by
        rw [hp]; exact beq_eq_false_iff_ne.mpr h
      simp [List.lookup, hsp]
    · rw [List.filter_cons]
      simp only [ne_eq, hp, not_false_eq_true, decide_True, if_true]
      by_cases hsp : s = p.1
      · simp [List.lookup, hsp]
      · have hb : (s == p.1) = false := beq_eq_false_iff_ne.mpr hsp
        simp only [ne_eq, decide_not] at ih
        simp [List.lookup, hb, ih]

theorem dict_set_lookup_other (m : List (Symbol × ℚ)) (k : Symbol) (v : ℚ)
    {s : Symbol} (h : s ≠ k) :
    (dict_set m k v).lookup s = m.lookup s := by
  have hks : (s == k) = false := beq_eq_false_iff_ne.mpr h
  show List.lookup s ((k, v) :: m.filter (fun p => p.1 ≠ k)) = List.lookup s m
  simp only [List.lookup, hks]
  exact lookup_filter_ne m k s h

/-- `get_latest_price` touches only the price cache. -/
theorem get_latest_price_state (env : MarketEnv) (st : Strategy) (symbol : Symbol)
    (b : Bool) :
    ∃ c, (get_latest_price env st symbol b).2 = { st with price_cache := c } := by
  unfold get_latest_price
  cases h : st.price_cache.lookup symbol with
  | some p => exact ⟨st.price_cache, rfl⟩
  | none =>
    dsimp only
    repeat' split
    all_goals exact ⟨_, rfl⟩

theorem get_latest_price_submitted (env : MarketEnv) (st : Strategy) (symbol : Symbol)
    (b : Bool) : (get_latest_price env st symbol b).2.submitted = st.submitted := by
  obtain ⟨c, hc⟩ := get_latest_price_state env st symbol b
  rw [hc]

theorem get_latest_price_last_buy (env : MarketEnv) (st : Strategy) (symbol : Symbol)
    (b : Bool) : (get_latest_price env st symbol b).2.last_buy_time = st.last_buy_time := by
  obtain ⟨c, hc⟩ := get_latest_price_state env st symbol b
  rw [hc]

theorem get_latest_price_stop_loss (env : MarketEnv) (st : Strategy) (symbol : Symbol)
    (b : Bool) :
    (get_latest_price env st symbol b).2.stop_loss_prices = st.stop_loss_prices := by
  obtain ⟨c, hc⟩ := get_latest_price_state env st symbol b
  rw [hc]

theorem get_latest_price_positions (env : MarketEnv) (st : Strategy) (symbol : Symbol)
    (b : Bool) : (get_latest_price env st symbol b).2.positions = st.positions := by
  obtain ⟨c, hc⟩ := get_latest_price_state env st symbol b
  rw [hc]

theorem get_latest_price_history (env : MarketEnv) (st : Strategy) (symbol : Symbol)
    (b : Bool) :
    (get_latest_price env st symbol b).2.trade_history = st.trade_history := by
  obtain ⟨c, hc⟩ := get_latest_price_state env st symbol b
  rw [hc]

/-! ## `place_order` case analysis -/

/-- An invalid quantity or failed qualification returns `(false, st)`
before any price fetch or submission. -/
theorem place_order_fail_state (cfg : Config) (env : MarketEnv) (st : Strategy)
    (symbol : Symbol) (action : Action) (quantity : ℚ) (reason : String) (lim : Bool)
    (h : quantity ≤ 0 ∨ quantity.floor ≤ 0 ∨ env.qualify symbol = false) :
    place_order cfg env st symbol action quantity reason lim = (false, st) := by
  unfold place_order
  rcases h with h | h | h
  · simp [h]
  · by_cases h0 : quantity ≤ 0
    · simp [h0]
    · simp [h0, h]
  · by_cases h0 : quantity ≤ 0
    · simp [h0]
    · by_cases hq : quantity.floor ≤ 0
      · simp [h0, hq]
      · simp [h0, hq, h]

/-- With a valid quantity and qualified contract but a non-positive
derived price, `place_order` fails with only the price cache touched. -/
theorem place_order_noprice_state (cfg : Config) (env : MarketEnv) (st : Strategy)
    (symbol : Symbol) (action : Action) (quantity : ℚ) (reason : String) (lim : Bool)
    (h1 : ¬quantity ≤ 0) (h2 : ¬quantity.floor ≤ 0) (h3 : env.qualify symbol = true)
    (h4 : (get_latest_price env st symbol true).1 ≤ 0) :
    place_order cfg env st symbol action quantity reason lim =
      (false, (get_latest_price env st symbol true).2) := by
  unfold place_order
  simp [h1, h2, h3, h4]

/-- With a valid quantity, qualified contract and positive derived price,
the order is submitted; the state and the returned flag in full. -/
theorem place_order_submit_state (cfg : Config) (env : MarketEnv) (st : Strategy)
    (symbol : Symbol) (action : Action) (quantity : ℚ) (reason : String) (lim : Bool)
    (h1 : ¬quantity ≤ 0) (h2 : ¬quantity.floor ≤ 0) (h3 : env.qualify symbol = true)
    (h4 : ¬(get_latest_price env st symbol true).1 ≤ 0) :
    place_order cfg env st symbol action quantity reason lim =
      ((decide (env.order_status symbol action = "Filled") ||
          decide (0 < env.order_filled symbol action)),
       (let pr := get_latest_price env st symbol true
        let st1 : Strategy :=
          { pr.2 with submitted :=
              pr.2.submitted ++ [⟨symbol, action, quantity.floor, reason⟩] }
        if action = Action.BUY ∧ 0 < env.order_filled symbol action then
          { st1 with
            last_buy_time := dict_set st1.last_buy_time symbol env.epoch,
            stop_loss_prices := dict_set st1.stop_loss_prices symbol
              ((if 0 < env.avg_fill_price symbol action
                then env.avg_fill_price symbol action else pr.1) *
                (1 - cfg.stop_loss_percent)) }
        else st1)) := by
  unfold place_order
  simp only [h1, if_false, h2, h3, Bool.not_true, Bool.false_eq_true, if_false, h4]
  by_cases hst : env.order_status symbol action = "Filled"
  · by_cases hf : 0 < env.order_filled symbol action <;> simp [hst, hf]
  · by_cases hf : 0 < env.order_filled symbol action <;> simp [hst, hf]

theorem append_one_ne (l : List OrderReq) (o : OrderReq) : l ++ [o] ≠ l := by
  intro h
  have := congrArg List.length h
  simp at this

/-! ## C4 -/

/-- C4 amended: `place_order` updates the cooldown and stop-loss maps iff
the order was actually submitted, is a BUY, and has filled quantity > 0;
then `last_buy_time[symbol]` becomes the current time and
`stop_loss_prices[symbol]` becomes `e × (1 − stop_loss_percent)` where `e`
is `avgFillPrice` when positive and otherwise the derived reference price;
in every other case — including early failures and unfilled or failed
orders — both maps are left exactly as they were. -/
theorem place_order_cooldown_stop_loss_frame (cfg : Config) (env : MarketEnv)
    (st : Strategy) (symbol : Symbol) (action : Action) (quantity : ℚ)
    (reason : String) (lim : Bool) :
    (((place_order cfg env st symbol action quantity reason lim).2.submitted ≠
          st.submitted ∧
        action = Action.BUY ∧ 0 < env.order_filled symbol action) →
      ((place_order cfg env st symbol action quantity reason lim).2.last_buy_time =
          dict_set st.last_buy_time symbol env.epoch ∧
        (place_order cfg env st symbol action quantity reason lim).2.stop_loss_prices =
          dict_set st.stop_loss_prices symbol
            ((if 0 < env.avg_fill_price symbol action
              then env.avg_fill_price symbol action
              else (get_latest_price env st symbol true).1) *
              (1 - cfg.stop_loss_percent)))) ∧
    ((action ≠ Action.BUY ∨ env.order_filled symbol action ≤ 0 ∨
        (place_order cfg env st symbol action quantity reason lim).2.submitted =
          st.submitted) →
      ((place_order cfg env st symbol action quantity reason lim).2.last_buy_time =
          st.last_buy_time ∧
        (place_order cfg env st symbol action quantity reason lim).2.stop_loss_prices =
          st.stop_loss_prices)) := by
  by_cases hearly : quantity ≤ 0 ∨ quantity.floor ≤ 0 ∨ env.qualify symbol = false
  · rw [place_order_fail_state cfg env st symbol action quantity reason lim hearly]
    exact ⟨fun h => absurd rfl h.1, fun _ => ⟨rfl, rfl⟩⟩
  · rcases not_or.mp hearly with ⟨h1, hrest⟩
    rcases not_or.mp hrest with ⟨h2, h3⟩
    have h3' : env.qualify symbol = true := by
      cases h : env.qualify symbol
      · exact absurd h h3
      · rfl
    by_cases h4 : (get_latest_price env st symbol true).1 ≤ 0
    · rw [place_order_noprice_state cfg env st symbol action quantity reason lim h1 h2 h3' h4]
      refine ⟨fun h => absurd (get_latest_price_submitted env st symbol true) h.1,
        fun _ => ⟨get_latest_price_last_buy env st symbol true,
          get_latest_price_stop_loss env st symbol true⟩⟩
    · rw [place_order_submit_state cfg env st symbol action quantity reason lim h1 h2 h3' h4]
      dsimp only
      by_cases hBF : action = Action.BUY ∧ 0 < env.order_filled symbol action
      · rw [if_pos hBF]
        constructor
        · intro _
          constructor
          · show dict_set (get_latest_price env st symbol true).2.last_buy_time symbol
                env.epoch = dict_set st.last_buy_time symbol env.epoch
            rw [get_latest_price_last_buy env st symbol true]
          · show dict_set (get_latest_price env st symbol true).2.stop_loss_prices symbol
                _ = dict_set st.stop_loss_prices symbol _
            rw [get_latest_price_stop_loss env st symbol true]
        · intro h
          rcases h with h | h | h
          · exact absurd hBF.1 h
          · exact absurd hBF.2 (not_lt.mpr h)
          · exfalso
            have hsub : (get_latest_price env st symbol true).2.submitted ++
                [⟨symbol, action, quantity.floor, reason⟩] = st.submitted := h
            rw [get_latest_price_submitted env st symbol true] at hsub
            exact append_one_ne st.submitted _ hsub
      · rw [if_neg hBF]
        refine ⟨fun h => absurd h.2 (by tauto), fun _ =>
          ⟨get_latest_price_last_buy env st symbol true,
           get_latest_price_stop_loss env st symbol true⟩⟩

/-- Shared demonstration configuration: 10-day cooldown, 5% stop-loss. -/
def cfg_demo : Config := { cooldown_seconds := 864000, stop_loss_percent := 1/20 }

/-- A fresh strategy state: no positions, stops, cooldowns, cache,
history or submissions. -/
def init_state : Strategy := ⟨[], [], [], [], [], []⟩

/-- Broker environment where a BUY order fills (10 shares) but the
reported average fill price is 0, forcing the stop-loss computation onto
the reference price (100). -/
def env_fill_fallback : MarketEnv where
  qualify := fun _ => true
  ib_data_ok := fun _ => true
  last := fun _ => 100
  close := fun _ => 0
  bid := fun _ => 0
  ask := fun _ => 0
  yf_close := fun _ => none
  order_status := fun _ _ => "Filled"
  order_filled := fun _ _ => 10
  avg_fill_price := fun _ _ => 0
  portfolio := []
  net_liquidation := 10000
  stored_history := []
  earnings_date := fun _ => none
  valid_returns := []
  earnings_data_ok := true
  today := civil_to_days 2025 10 13
  time_min := 600
  epoch := 1000

/-- C4 counterexample: a filled BUY whose `avgFillPrice` is 0 stores the
stop-loss `100 × (1 − 0.05) = 95` derived from the reference price, not
`avgFillPrice × (1 − stop_loss_percent) = 0` as the claim states. -/
theorem place_order_stop_loss_fallback_counterexample :
    (0 : ℚ) < env_fill_fallback.order_filled "AAPL" Action.BUY ∧
      (place_order cfg_demo env_fill_fallback init_state "AAPL" Action.BUY 10 "entry"
          true).2.stop_loss_prices.lookup "AAPL" = some 95 ∧
      env_fill_fallback.avg_fill_price "AAPL" Action.BUY *
          (1 - cfg_demo.stop_loss_percent) = 0 ∧
      some (95 : ℚ) ≠ some (0 : ℚ) :=
  ⟨by norm_num [env_fill_fallback],
   by norm_num [place_order, get_latest_price, env_fill_fallback, cfg_demo, init_state,
     dict_set, List.lookup, Rat.floor_def'],
   by norm_num [env_fill_fallback, cfg_demo],
   by norm_num⟩

/-- C4 witness: the amended theorem applied at the concrete environment,
in both the mutating and the frame direction. -/
theorem place_order_cooldown_stop_loss_frame_witness :
    ((place_order cfg_demo env_fill_fallback init_state "AAPL" Action.BUY 10 "entry"
        true).2.last_buy_time = dict_set init_state.last_buy_time "AAPL" 1000 ∧
      (place_order cfg_demo env_fill_fallback init_state "AAPL" Action.BUY 10 "entry"
        true).2.stop_loss_prices =
          dict_set init_state.stop_loss_prices "AAPL"
            ((if (0:ℚ) < env_fill_fallback.avg_fill_price "AAPL" Action.BUY
              then env_fill_fallback.avg_fill_price "AAPL" Action.BUY
              else (get_latest_price env_fill_fallback init_state "AAPL" true).1) *
              (1 - cfg_demo.stop_loss_percent))) ∧
    ((place_order cfg_demo env_fill_fallback init_state "AAPL" Action.SELL 10 "exit"
        true).2.last_buy_time = init_state.last_buy_time ∧
      (place_order cfg_demo env_fill_fallback init_state "AAPL" Action.SELL 10 "exit"
        true).2.stop_loss_prices = init_state.stop_loss_prices) :=
  ⟨(place_order_cooldown_stop_loss_frame cfg_demo env_fill_fallback init_state "AAPL"
      Action.BUY 10 "entry" true).1
      ⟨by norm_num [place_order, get_latest_price, env_fill_fallback, cfg_demo, init_state,
          dict_set, List.lookup, Rat.floor_def'],
       rfl,
       by norm_num [env_fill_fallback]⟩,
   (place_order_cooldown_stop_loss_frame cfg_demo env_fill_fallback init_state "AAPL"
      Action.SELL 10 "exit" true).2 (Or.inl (by simp))⟩

/-! ## C8 -/

/-- Modelled from the claim's words, for comparison with the source's
`get_latest_price`: try last trade, close, bid/ask midpoint, then the
yfinance daily close, stopping at the first positive value, else 0 —
without the source's requirement that both bid and ask be positive before
the midpoint is considered. -/
def claimed_price_chain (env : MarketEnv) (symbol : Symbol) : ℚ :=
  if 0 < env.last symbol then env.last symbol
  else if 0 < env.close symbol then env.close symbol
  else if 0 < (env.bid symbol + env.ask symbol) / 2 then
    (env.bid symbol + env.ask symbol) / 2
  else
    match env.yf_close symbol with
    | some c => if 0 < c then c else 0
    | none => 0

/-- Quote environment with no last trade or close, an absent bid (0, the
no-quote value) but a live ask of 10, and no yfinance data. -/
def env_mid_guard : MarketEnv where
  qualify := fun _ => true
  ib_data_ok := fun _ => true
  last := fun _ => 0
  close := fun _ => 0
  bid := fun _ => 0
  ask := fun _ => 10
  yf_close := fun _ => none
  order_status := fun _ _ => "Submitted"
  order_filled := fun _ _ => 0
  avg_fill_price := fun _ _ => 0
  portfolio := []
  net_liquidation := 10000
  stored_history := []
  earnings_date := fun _ => none
  valid_returns := []
  earnings_data_ok := true
  today := civil_to_days 2025 10 13
  time_min := 600
  epoch := 1000

/-- C8 counterexample: with bid = 0 and ask = 10 the claim's chain stops
at the positive midpoint 5, but the source requires both bid and ask to be
positive, skips the midpoint, finds no yfinance data, and returns 0. -/
theorem price_chain_midpoint_guard_counterexample :
    (get_latest_price env_mid_guard init_state "XYZ" true).1 = 0 ∧
      claimed_price_chain env_mid_guard "XYZ" = 5 ∧ (0 : ℚ) ≠ 5 := by
  refine ⟨?_, ?_, by norm_num⟩
  · norm_num [get_latest_price, env_mid_guard, init_state, List.lookup]
  · norm_num [claimed_price_chain, env_mid_guard]

/-- C8 amended: on a cache miss with a live quote, `get_latest_price`
returns the first positive of last trade and close, then the bid/ask
midpoint when both sides are positive, and otherwise falls back to the
yfinance daily close (returned even when not positive) or 0; whenever the
derived price is not positive, `place_order` returns false and submits
nothing. -/
theorem price_fallback_chain (cfg : Config) (env : MarketEnv) (st : Strategy)
    (symbol : Symbol) (action : Action) (quantity : ℚ) (reason : String) (lim : Bool)
    (hcache : st.price_cache.lookup symbol = none)
    (hib : env.ib_data_ok symbol = true) :
    (get_latest_price env st symbol true).1 =
        (if 0 < env.last symbol then env.last symbol
         else if 0 < env.close symbol then env.close symbol
         else if 0 < env.bid symbol ∧ 0 < env.ask symbol then
           (env.bid symbol + env.ask symbol) / 2
         else (env.yf_close symbol).getD 0) ∧
      ((get_latest_price env st symbol true).1 ≤ 0 →
        (place_order cfg env st symbol action quantity reason lim).1 = false ∧
        (place_order cfg env st symbol action quantity reason lim).2.submitted =
          st.submitted) := by
  constructor
  · unfold get_latest_price
    rw [hcache]
    dsimp only
    rw [hib]
    simp only [if_true]
    by_cases hl : 0 < env.last symbol
    · have hl' : ¬env.last symbol ≤ 0 := not_le.mpr hl
      simp [hl, hl']
    · have hl' : env.last symbol ≤ 0 := not_lt.mp hl
      by_cases hc : 0 < env.close symbol
      · have hc' : ¬env.close symbol ≤ 0 := not_le.mpr hc
        simp [hl, hl', hc, hc']
      · have hc' : env.close symbol ≤ 0 := not_lt.mp hc
        by_cases hba : 0 < env.bid symbol ∧ 0 < env.ask symbol
        · have hmid : 0 < (env.bid symbol + env.ask symbol) / 2 :=
            div_pos (add_pos hba.1 hba.2) two_pos
          simp [hl', hc', hba, hmid, hl, hc]
        · simp only [hl', if_true, hc', true_and, hba, if_false]
          simp only [not_lt.mpr hc', if_false]
          cases hyf : env.yf_close symbol with
          | some c => simp [hl, hc, hba, hyf]
          | none => simp [hl, hc, hba, hyf]
  · intro hp
    by_cases hearly : quantity ≤ 0 ∨ quantity.floor ≤ 0 ∨ env.qualify symbol = false
    · rw [place_order_fail_state cfg env st symbol action quantity reason lim hearly]
      exact ⟨rfl, rfl⟩
    · rcases not_or.mp hearly with ⟨h1, hrest⟩
      rcases not_or.mp hrest with ⟨h2, h3⟩
      have h3' : env.qualify symbol = true := by
        cases h : env.qualify symbol
        · exact absurd h h3
        · rfl
      rw [place_order_noprice_state cfg env st symbol action quantity reason lim h1 h2 h3' hp]
      exact ⟨rfl, get_latest_price_submitted env st symbol true⟩

/-- C8 witness: the amended chain evaluated on the counterexample quote
environment, with the no-submission consequence. -/
theorem price_fallback_chain_witness :
    (get_latest_price env_mid_guard init_state "XYZ" true).1 = 0 ∧
      (place_order cfg_demo env_mid_guard init_state "XYZ" Action.BUY 10 "entry"
          true).1 = false ∧
      (place_order cfg_demo env_mid_guard init_state "XYZ" Action.BUY 10 "entry"
          true).2.submitted = init_state.submitted := by
  have h := price_fallback_chain cfg_demo env_mid_guard init_state "XYZ" Action.BUY 10
    "entry" true rfl rfl
  have h0 : (get_latest_price env_mid_guard init_state "XYZ" true).1 = 0 := by
    rw [h.1]; norm_num [env_mid_guard]
  exact ⟨h0, (h.2 (by rw [h0])).1, (h.2 (by rw [h0])).2⟩

/-! ## Frame lemmas for the per-symbol loops -/

theorem get_latest_price_cache_other (env : MarketEnv) (st : Strategy) (symbol : Symbol)
    (b : Bool) {s : Symbol} (h : s ≠ symbol) :
    (get_latest_price env st symbol b).2.price_cache.lookup s =
      st.price_cache.lookup s := by
  unfold get_latest_price
  cases hc : st.price_cache.lookup symbol with
  | some p => rfl
  | none =>
    dsimp only
    repeat' split
    all_goals first
      | exact dict_set_lookup_other _ _ _ h
      | rfl

/-- The price `get_latest_price` yields depends only on the environment
and the cache entry for the requested symbol. -/
theorem get_latest_price_congr (env : MarketEnv) (st st' : Strategy) (symbol : Symbol)
    (b : Bool) (h : st'.price_cache.lookup symbol = st.price_cache.lookup symbol) :
    (get_latest_price env st' symbol b).1 = (get_latest_price env st symbol b).1 := by
  unfold get_latest_price
  rw [h]
  cases st.price_cache.lookup symbol with
  | some p => rfl
  | none =>
    dsimp only
    repeat' split
    all_goals rfl

theorem place_order_positions (cfg : Config) (env : MarketEnv) (st : Strategy)
    (symbol : Symbol) (action : Action) (quantity : ℚ) (reason : String) (lim : Bool) :
    (place_order cfg env st symbol action quantity reason lim).2.positions =
      st.positions := by
  by_cases hearly : quantity ≤ 0 ∨ quantity.floor ≤ 0 ∨ env.qualify symbol = false
  · rw [place_order_fail_state cfg env st symbol action quantity reason lim hearly]
  · rcases not_or.mp hearly with ⟨h1, hrest⟩
    rcases not_or.mp hrest with ⟨h2, h3⟩
    have h3' : env.qualify symbol = true := by
      cases h : env.qualify symbol
      · exact absurd h h3
      · rfl
    by_cases h4 : (get_latest_price env st symbol true).1 ≤ 0
    · rw [place_order_noprice_state cfg env st symbol action quantity reason lim h1 h2 h3' h4]
      exact get_latest_price_positions env st symbol true
    · rw [place_order_submit_state cfg env st symbol action quantity reason lim h1 h2 h3' h4]
      dsimp only
      split
      · exact get_latest_price_positions env st symbol true
      · exact get_latest_price_positions env st symbol true

theorem place_order_trade_history (cfg : Config) (env : MarketEnv) (st : Strategy)
    (symbol : Symbol) (action : Action) (quantity : ℚ) (reason : String) (lim : Bool) :
    (place_order cfg env st symbol action quantity reason lim).2.trade_history =
      st.trade_history := by
  by_cases hearly : quantity ≤ 0 ∨ quantity.floor ≤ 0 ∨ env.qualify symbol = false
  · rw [place_order_fail_state cfg env st symbol action quantity reason lim hearly]
  · rcases not_or.mp hearly with ⟨h1, hrest⟩
    rcases not_or.mp hrest with ⟨h2, h3⟩
    have h3' : env.qualify symbol = true := by
      cases h : env.qualify symbol
      · exact absurd h h3
      · rfl
    by_cases h4 : (get_latest_price env st symbol true).1 ≤ 0
    · rw [place_order_noprice_state cfg env st symbol action quantity reason lim h1 h2 h3' h4]
      exact get_latest_price_history env st symbol true
    · rw [place_order_submit_state cfg env st symbol action quantity reason lim h1 h2 h3' h4]
      dsimp only
      split
      · exact get_latest_price_history env st symbol true
      · exact get_latest_price_history env st symbol true

theorem place_order_cache_other (cfg : Config) (env : MarketEnv) (st : Strategy)
    (symbol : Symbol) (action : Action) (quantity : ℚ) (reason : String) (lim : Bool)
    {s : Symbol} (h : s ≠ symbol) :
    (place_order cfg env st symbol action quantity reason lim).2.price_cache.lookup s =
      st.price_cache.lookup s := by
  by_cases hearly : quantity ≤ 0 ∨ quantity.floor ≤ 0 ∨ env.qualify symbol = false
  · rw [place_order_fail_state cfg env st symbol action quantity reason lim hearly]
  · rcases not_or.mp hearly with ⟨h1, hrest⟩
    rcases not_or.mp hrest with ⟨h2, h3⟩
    have h3' : env.qualify symbol = true := by
      cases hq : env.qualify symbol
      · exact absurd hq h3
      · rfl
    by_cases h4 : (get_latest_price env st symbol true).1 ≤ 0
    · rw [place_order_noprice_state cfg env st symbol action quantity reason lim h1 h2 h3' h4]
      exact get_latest_price_cache_other env st symbol true h
    · rw [place_order_submit_state cfg env st symbol action quantity reason lim h1 h2 h3' h4]
      dsimp only
      split
      · exact get_latest_price_cache_other env st symbol true h
      · exact get_latest_price_cache_other env st symbol true h

/-- `place_order` never updates cooldown or stop-loss entries of other
symbols. -/
theorem place_order_maps_other (cfg : Config) (env : MarketEnv) (st : Strategy)
    (symbol : Symbol) (action : Action) (quantity : ℚ) (reason : String) (lim : Bool)
    {s : Symbol} (h : s ≠ symbol) :
    (place_order cfg env st symbol action quantity reason lim).2.last_buy_time.lookup s =
        st.last_buy_time.lookup s ∧
      (place_order cfg env st symbol action quantity reason lim).2.stop_loss_prices.lookup s =
        st.stop_loss_prices.lookup s := by
  by_cases hearly : quantity ≤ 0 ∨ quantity.floor ≤ 0 ∨ env.qualify symbol = false
  · rw [place_order_fail_state cfg env st symbol action quantity reason lim hearly]
    exact ⟨rfl, rfl⟩
  · rcases not_or.mp hearly with ⟨h1, hrest⟩
    rcases not_or.mp hrest with ⟨h2, h3⟩
    have h3' : env.qualify symbol = true := by
      cases hq : env.qualify symbol
      · exact absurd hq h3
      · rfl
    by_cases h4 : (get_latest_price env st symbol true).1 ≤ 0
    · rw [place_order_noprice_state cfg env st symbol action quantity reason lim h1 h2 h3' h4]
      rw [get_latest_price_last_buy env st symbol true,
        get_latest_price_stop_loss env st symbol true]
      exact ⟨rfl, rfl⟩
    · rw [place_order_submit_state cfg env st symbol action quantity reason lim h1 h2 h3' h4]
      dsimp only
      split
      · constructor
        · show (dict_set (get_latest_price env st symbol true).2.last_buy_time symbol
              env.epoch).lookup s = _
          rw [dict_set_lookup_other _ _ _ h, get_latest_price_last_buy env st symbol true]
        · show (dict_set (get_latest_price env st symbol true).2.stop_loss_prices symbol
              _).lookup s = _
          rw [dict_set_lookup_other _ _ _ h, get_latest_price_stop_loss env st symbol true]
      · rw [get_latest_price_last_buy env st symbol true,
          get_latest_price_stop_loss env st symbol true]
        exact ⟨rfl, rfl⟩

/-- A non-BUY order never touches either map, for any key. -/
theorem place_order_not_buy_maps (cfg : Config) (env : MarketEnv) (st : Strategy)
    (symbol : Symbol) (quantity : ℚ) (reason : String) (lim : Bool) :
    (place_order cfg env st symbol Action.SELL quantity reason lim).2.last_buy_time =
        st.last_buy_time ∧
      (place_order cfg env st symbol Action.SELL quantity reason lim).2.stop_loss_prices =
        st.stop_loss_prices := by
  by_cases hearly : quantity ≤ 0 ∨ quantity.floor ≤ 0 ∨ env.qualify symbol = false
  · rw [place_order_fail_state cfg env st symbol Action.SELL quantity reason lim hearly]
    exact ⟨rfl, rfl⟩
  · rcases not_or.mp hearly with ⟨h1, hrest⟩
    rcases not_or.mp hrest with ⟨h2, h3⟩
    have h3' : env.qualify symbol = true := by
      cases hq : env.qualify symbol
      · exact absurd hq h3
      · rfl
    by_cases h4 : (get_latest_price env st symbol true).1 ≤ 0
    · rw [place_order_noprice_state cfg env st symbol Action.SELL quantity reason lim h1 h2 h3' h4]
      exact ⟨get_latest_price_last_buy env st symbol true,
        get_latest_price_stop_loss env st symbol true⟩
    · rw [place_order_submit_state cfg env st symbol Action.SELL quantity reason lim h1 h2 h3' h4]
      dsimp only
      rw [if_neg (by simp)]
      exact ⟨get_latest_price_last_buy env st symbol true,
        get_latest_price_stop_loss env st symbol true⟩

/-- Every order on the outgoing trace was already there or is the one this
call submits. -/
theorem place_order_submitted_sub (cfg : Config) (env : MarketEnv) (st : Strategy)
    (symbol : Symbol) (action : Action) (quantity : ℚ) (reason : String) (lim : Bool)
    {o : OrderReq}
    (ho : o ∈ (place_order cfg env st symbol action quantity reason lim).2.submitted) :
    o ∈ st.submitted ∨ o = ⟨symbol, action, quantity.floor, reason⟩ := by
  by_cases hearly : quantity ≤ 0 ∨ quantity.floor ≤ 0 ∨ env.qualify symbol = false
  · rw [place_order_fail_state cfg env st symbol action quantity reason lim hearly] at ho
    exact Or.inl ho
  · rcases not_or.mp hearly with ⟨h1, hrest⟩
    rcases not_or.mp hrest with ⟨h2, h3⟩
    have h3' : env.qualify symbol = true := by
      cases hq : env.qualify symbol
      · exact absurd hq h3
      · rfl
    by_cases h4 : (get_latest_price env st symbol true).1 ≤ 0
    · rw [place_order_noprice_state cfg env st symbol action quantity reason lim h1 h2 h3' h4] at ho
      rw [get_latest_price_submitted env st symbol true] at ho
      exact Or.inl ho
    · rw [place_order_submit_state cfg env st symbol action quantity reason lim h1 h2 h3' h4] at ho
      dsimp only at ho
      have ho' : o ∈ (get_latest_price env st symbol true).2.submitted ++
          [(⟨symbol, action, quantity.floor, reason⟩ : OrderReq)] := by
        revert ho
        split <;> exact fun ho => ho
      rw [get_latest_price_submitted env st symbol true] at ho'
      rcases List.mem_append.mp ho' with hmem | hmem
      · exact Or.inl hmem
      · exact Or.inr (by simpa using hmem)

/-- The submission trace only grows. -/
theorem place_order_submitted_mono (cfg : Config) (env : MarketEnv) (st : Strategy)
    (symbol : Symbol) (action : Action) (quantity : ℚ) (reason : String) (lim : Bool)
    {o : OrderReq} (ho : o ∈ st.submitted) :
    o ∈ (place_order cfg env st symbol action quantity reason lim).2.submitted := by
  by_cases hearly : quantity ≤ 0 ∨ quantity.floor ≤ 0 ∨ env.qualify symbol = false
  · rw [place_order_fail_state cfg env st symbol action quantity reason lim hearly]
    exact ho
  · rcases not_or.mp hearly with ⟨h1, hrest⟩
    rcases not_or.mp hrest with ⟨h2, h3⟩
    have h3' : env.qualify symbol = true := by
      cases hq : env.qualify symbol
      · exact absurd hq h3
      · rfl
    by_cases h4 : (get_latest_price env st symbol true).1 ≤ 0
    · rw [place_order_noprice_state cfg env st symbol action quantity reason lim h1 h2 h3' h4]
      rw [get_latest_price_submitted env st symbol true]
      exact ho
    · rw [place_order_submit_state cfg env st symbol action quantity reason lim h1 h2 h3' h4]
      dsimp only
      have hgoal : o ∈ (get_latest_price env st symbol true).2.submitted ++
          [(⟨symbol, action, quantity.floor, reason⟩ : OrderReq)] := by
        rw [get_latest_price_submitted env st symbol true]
        exact List.mem_append_left _ ho
      split <;> exact hgoal

/-- A positive derived price always ends up in the cache. -/
theorem get_latest_price_caches (env : MarketEnv) (st : Strategy) (symbol : Symbol)
    (b : Bool) (h : 0 < (get_latest_price env st symbol b).1) :
    (get_latest_price env st symbol b).2.price_cache.lookup symbol =
      some (get_latest_price env st symbol b).1 := by
  revert h
  unfold get_latest_price
  cases hc : st.price_cache.lookup symbol with
  | some p => intro h; exact hc
  | none =>
    dsimp only
    repeat' split
    all_goals intro h
    all_goals first
      | exact dict_set_lookup_self _ _ _
      | exact absurd h (by norm_num)

theorem get_latest_price_cache_hit (env : MarketEnv) (st : Strategy) (symbol : Symbol)
    (b : Bool) {v : ℚ} (h : st.price_cache.lookup symbol = some v) :
    get_latest_price env st symbol b = (v, st) := by
  unfold get_latest_price
  rw [h]

theorem mem_fst_unique {ps : List (Symbol × ℚ)} (hnd : (ps.map Prod.fst).Nodup)
    {s : Symbol} {q q' : ℚ} (h1 : (s, q) ∈ ps) (h2 : (s, q') ∈ ps) : q = q' := by
  induction ps with
  | nil => exact absurd h1 (List.not_mem_nil _)
  | cons p rest ih =>
    rw [List.map_cons, List.nodup_cons] at hnd
    rcases List.mem_cons.mp h1 with e1 | m1
    · rcases List.mem_cons.mp h2 with e2 | m2
      · rw [← e1] at e2; exact (congrArg Prod.snd e2).symm
      · exfalso
        apply hnd.1
        rw [← e1]
        exact List.mem_map.mpr ⟨(s, q'), m2, rfl⟩
    · rcases List.mem_cons.mp h2 with e2 | m2
      · exfalso
        apply hnd.1
        rw [← e2]
        exact List.mem_map.mpr ⟨(s, q), m1, rfl⟩
      · exact ih hnd.2 m1 m2

/-! ### Stop-loss scan lemmas -/

theorem monitor_step_stop_loss (cfg : Config) (env : MarketEnv) (st : Strategy)
    (pos : Symbol × ℚ) :
    (monitor_step cfg env st pos).stop_loss_prices = st.stop_loss_prices := by
  unfold monitor_step
  dsimp only
  split
  · exact get_latest_price_stop_loss env st pos.1 true
  · split
    · rw [(place_order_not_buy_maps cfg env _ pos.1 |pos.2| "stop-loss" true).2]
      exact get_latest_price_stop_loss env st pos.1 true
    · exact get_latest_price_stop_loss env st pos.1 true

theorem monitor_step_last_buy (cfg : Config) (env : MarketEnv) (st : Strategy)
    (pos : Symbol × ℚ) :
    (monitor_step cfg env st pos).last_buy_time = st.last_buy_time := by
  unfold monitor_step
  dsimp only
  split
  · exact get_latest_price_last_buy env st pos.1 true
  · split
    · rw [(place_order_not_buy_maps cfg env _ pos.1 |pos.2| "stop-loss" true).1]
      exact get_latest_price_last_buy env st pos.1 true
    · exact get_latest_price_last_buy env st pos.1 true

theorem monitor_step_positions (cfg : Config) (env : MarketEnv) (st : Strategy)
    (pos : Symbol × ℚ) :
    (monitor_step cfg env st pos).positions = st.positions := by
  unfold monitor_step
  dsimp only
  split
  · exact get_latest_price_positions env st pos.1 true
  · split
    · rw [place_order_positions cfg env _ pos.1 Action.SELL |pos.2| "stop-loss" true]
      exact get_latest_price_positions env st pos.1 true
    · exact get_latest_price_positions env st pos.1 true

theorem monitor_step_cache_other (cfg : Config) (env : MarketEnv) (st : Strategy)
    (pos : Symbol × ℚ) {s : Symbol} (h : s ≠ pos.1) :
    (monitor_step cfg env st pos).price_cache.lookup s = st.price_cache.lookup s := by
  unfold monitor_step
  dsimp only
  split
  · exact get_latest_price_cache_other env st pos.1 true h
  · split
    · rw [place_order_cache_other cfg env _ pos.1 Action.SELL |pos.2| "stop-loss" true h]
      exact get_latest_price_cache_other env st pos.1 true h
    · exact get_latest_price_cache_other env st pos.1 true h

theorem monitor_step_submitted_sub (cfg : Config) (env : MarketEnv) (st : Strategy)
    (pos : Symbol × ℚ) {o : OrderReq}
    (ho : o ∈ (monitor_step cfg env st pos).submitted) :
    o ∈ st.submitted ∨
      (0 < pos.2 ∧ o = ⟨pos.1, Action.SELL, (|pos.2| : ℚ).floor, "stop-loss"⟩) := by
  revert ho
  unfold monitor_step
  dsimp only
  split
  · intro ho
    rw [get_latest_price_submitted env st pos.1 true] at ho
    exact Or.inl ho
  · split
    next hcond =>
      intro ho
      rcases place_order_submitted_sub cfg env _ pos.1 Action.SELL |pos.2| "stop-loss"
          true ho with hmem | heq
      · rw [get_latest_price_submitted env st pos.1 true] at hmem
        exact Or.inl hmem
      · exact Or.inr ⟨hcond.1, heq⟩
    next =>
      intro ho
      rw [get_latest_price_submitted env st pos.1 true] at ho
      exact Or.inl ho

theorem monitor_step_submitted_mono (cfg : Config) (env : MarketEnv) (st : Strategy)
    (pos : Symbol × ℚ) {o : OrderReq} (ho : o ∈ st.submitted) :
    o ∈ (monitor_step cfg env st pos).submitted := by
  unfold monitor_step
  dsimp only
  split
  · rw [get_latest_price_submitted env st pos.1 true]; exact ho
  · split
    · exact place_order_submitted_mono cfg env _ pos.1 Action.SELL |pos.2| "stop-loss" true
        (by rw [get_latest_price_submitted env st pos.1 true]; exact ho)
    · rw [get_latest_price_submitted env st pos.1 true]; exact ho

/-- The stop-loss check seen inside the step equals the one on the
incoming state. -/
theorem monitor_step_check_eq (env : MarketEnv) (st : Strategy) (s : Symbol) (p : ℚ) :
    check_stop_loss (get_latest_price env st s true).2 s p = check_stop_loss st s p := by
  unfold check_stop_loss
  rw [get_latest_price_stop_loss env st s true]

/-- When the price is live, the position long, and the stored stop
breached, the step submits exactly the closing SELL. -/
theorem monitor_step_fire (cfg : Config) (env : MarketEnv) (st : Strategy)
    (pos : Symbol × ℚ) (hqual : env.qualify pos.1 = true) (hq1 : 1 ≤ |pos.2|)
    (hp : 0 < (get_latest_price env st pos.1 true).1)
    (hcond : 0 < pos.2 ∧
      check_stop_loss st pos.1 (get_latest_price env st pos.1 true).1 = true) :
    (monitor_step cfg env st pos).submitted =
      st.submitted ++ [⟨pos.1, Action.SELL, (|pos.2| : ℚ).floor, "stop-loss"⟩] := by
  unfold monitor_step
  dsimp only
  rw [if_neg (not_le.mpr hp)]
  rw [if_pos ⟨hcond.1, by rw [monitor_step_check_eq]; exact hcond.2⟩]
  have hhit : get_latest_price env (get_latest_price env st pos.1 true).2 pos.1 true =
      ((get_latest_price env st pos.1 true).1, (get_latest_price env st pos.1 true).2) :=
    get_latest_price_cache_hit env _ pos.1 true
      (get_latest_price_caches env st pos.1 true hp)
  have h1 : ¬(|pos.2| ≤ 0) := not_le.mpr (lt_of_lt_of_le one_pos hq1)
  have h2 : ¬((|pos.2| : ℚ).floor ≤ 0) := by
    have : (1 : ℤ) ≤ (|pos.2| : ℚ).floor := Rat.le_floor.mpr (by exact_mod_cast hq1)
    omega
  have h4 : ¬((get_latest_price env (get_latest_price env st pos.1 true).2 pos.1 true).1 ≤ 0) := by
    rw [hhit]
    exact not_le.mpr hp
  rw [place_order_submit_state cfg env _ pos.1 Action.SELL |pos.2| "stop-loss" true
    h1 h2 hqual h4]
  dsimp only
  rw [if_neg (by simp)]
  show (get_latest_price env (get_latest_price env st pos.1 true).2 pos.1 true).2.submitted
      ++ _ = _
  rw [hhit]
  dsimp only
  rw [get_latest_price_submitted env st pos.1 true]

theorem monitor_loop_submitted_sub (cfg : Config) (env : MarketEnv) :
    ∀ (ps : List (Symbol × ℚ)) (st : Strategy) {o : OrderReq},
      o ∈ (monitor_loop cfg env st ps).submitted →
      o ∈ st.submitted ∨ ∃ pos ∈ ps, 0 < pos.2 ∧
        o = ⟨pos.1, Action.SELL, (|pos.2| : ℚ).floor, "stop-loss"⟩
  | [], st, o, ho => Or.inl ho
  | pos :: rest, st, o, ho => by
    rcases monitor_loop_submitted_sub cfg env rest (monitor_step cfg env st pos) ho with
      hstep | ⟨pos', hmem, hq, heq⟩
    · rcases monitor_step_submitted_sub cfg env st pos hstep with hmem | ⟨hq, heq⟩
      · exact Or.inl hmem
      · exact Or.inr ⟨pos, List.mem_cons_self _ _, hq, heq⟩
    · exact Or.inr ⟨pos', List.mem_cons_of_mem _ hmem, hq, heq⟩

theorem monitor_loop_submitted_mono (cfg : Config) (env : MarketEnv) :
    ∀ (ps : List (Symbol × ℚ)) (st : Strategy) {o : OrderReq}, o ∈ st.submitted →
      o ∈ (monitor_loop cfg env st ps).submitted
  | [], _, _, ho => ho
  | pos :: rest, st, o, ho =>
    monitor_loop_submitted_mono cfg env rest (monitor_step cfg env st pos)
      (monitor_step_submitted_mono cfg env st pos ho)

theorem monitor_step_skip (cfg : Config) (env : MarketEnv) (st : Strategy)
    (pos : Symbol × ℚ)
    (hcond : ¬(0 < pos.2 ∧
      check_stop_loss st pos.1 (get_latest_price env st pos.1 true).1 = true)) :
    (monitor_step cfg env st pos).submitted = st.submitted := by
  unfold monitor_step
  dsimp only
  split
  · exact get_latest_price_submitted env st pos.1 true
  · split
    next h =>
      exact absurd ⟨h.1, by rw [monitor_step_check_eq] at h; exact h.2⟩ hcond
    next =>
      exact get_latest_price_submitted env st pos.1 true

theorem check_stop_loss_iff (st : Strategy) (s : Symbol) (p : ℚ) :
    check_stop_loss st s p = true ↔
      ∃ sl, st.stop_loss_prices.lookup s = some sl ∧ p ≤ sl := by
  unfold check_stop_loss
  cases h : st.stop_loss_prices.lookup s <;> simp [h]

/-- Membership of a symbol's closing stop-loss SELL in the scan's trace is
equivalent to that symbol's position being long with a stored, breached
stop price. -/
theorem monitor_loop_mem (cfg : Config) (env : MarketEnv) :
    ∀ (ps : List (Symbol × ℚ)) (st : Strategy) (s : Symbol) (q : ℚ),
      (s, q) ∈ ps → (ps.map Prod.fst).Nodup →
      env.qualify s = true → 1 ≤ |q| →
      0 < (get_latest_price env st s true).1 →
      (∀ o ∈ st.submitted, o.symbol ≠ s) →
      ((⟨s, Action.SELL, (|q| : ℚ).floor, "stop-loss"⟩ : OrderReq) ∈
          (monitor_loop cfg env st ps).submitted ↔
        (0 < q ∧ ∃ sl, st.stop_loss_prices.lookup s = some sl ∧
          (get_latest_price env st s true).1 ≤ sl))
  | [], _, _, _, hmem, _, _, _, _, _ => absurd hmem (List.not_mem_nil _)
  | pos :: rest, st, s, q, hmem, hnd, hqual, hq1, hp, hnotin => by
    rw [List.map_cons, List.nodup_cons] at hnd
    rcases List.mem_cons.mp hmem with he | hmem'
    · subst he
      dsimp only at hnd
      by_cases hcond : 0 < q ∧
          check_stop_loss st s (get_latest_price env st s true).1 = true
      · have hfire := monitor_step_fire cfg env st (s, q) hqual hq1 hp hcond
        constructor
        · intro _
          exact ⟨hcond.1, (check_stop_loss_iff st s _).mp hcond.2⟩
        · intro _
          show _ ∈ (monitor_loop cfg env (monitor_step cfg env st (s, q)) rest).submitted
          apply monitor_loop_submitted_mono
          rw [hfire]
          exact List.mem_append_right _ (List.mem_singleton.mpr rfl)
      · have hskip := monitor_step_skip cfg env st (s, q) hcond
        constructor
        · intro hmemo
          exfalso
          rcases monitor_loop_submitted_sub cfg env rest (monitor_step cfg env st (s, q))
              hmemo with hin | ⟨pos', hmem2, _, heq⟩
          · rw [hskip] at hin
            exact hnotin _ hin rfl
          · apply hnd.1
            have : pos'.1 = s := by
              have := congrArg OrderReq.symbol heq
              simpa using this.symm
            rw [← this]
            exact List.mem_map.mpr ⟨pos', hmem2, rfl⟩
        · rintro ⟨hq0, sl, hlook, hle⟩
          exact absurd ⟨hq0, (check_stop_loss_iff st s _).mpr ⟨sl, hlook, hle⟩⟩ hcond
    · have hne : s ≠ pos.1 := by
        intro e
        apply hnd.1
        rw [← e]
        exact List.mem_map.mpr ⟨(s, q), hmem', rfl⟩
      have hcache : (monitor_step cfg env st pos).price_cache.lookup s =
          st.price_cache.lookup s := monitor_step_cache_other cfg env st pos hne
      have hglp : (get_latest_price env (monitor_step cfg env st pos) s true).1 =
          (get_latest_price env st s true).1 :=
        get_latest_price_congr env st _ s true hcache
      have hnotin' : ∀ o ∈ (monitor_step cfg env st pos).submitted, o.symbol ≠ s := by
        intro o ho
        rcases monitor_step_submitted_sub cfg env st pos ho with hin | ⟨_, heq⟩
        · exact hnotin o hin
        · rw [heq]
          exact fun e => hne e.symm
      have ih := monitor_loop_mem cfg env rest (monitor_step cfg env st pos) s q hmem'
        hnd.2 hqual hq1 (by rw [hglp]; exact hp) hnotin'
      rw [monitor_step_stop_loss cfg env st pos, hglp] at ih
      exact ih

/-! ## C5 -/

/-- C5: assuming the symbol qualifies and a live price was fetched
(`0 < price`; a zero price means the fetch failed and the source skips the
symbol, per its error handling), the stop-loss pass submits the closing
SELL of `abs(quantity)` for a held position iff the position is long
(`quantity > 0`), a stop price is stored, and the price is at or below it;
and for a short position (`quantity < 0`) no order at all is submitted for
that symbol. -/
theorem monitor_positions_stop_loss_iff (cfg : Config) (env : MarketEnv)
    (st : Strategy) (s : Symbol) (q : ℚ)
    (hmem : (s, q) ∈ env.portfolio)
    (hnd : (env.portfolio.map Prod.fst).Nodup)
    (hsub : st.submitted = [])
    (hqual : env.qualify s = true)
    (hq1 : 1 ≤ |q|) :
    (0 < (get_latest_price env st s true).1 →
      ((⟨s, Action.SELL, (|q| : ℚ).floor, "stop-loss"⟩ : OrderReq) ∈
          (monitor_positions cfg env st).submitted ↔
        (0 < q ∧ ∃ sl, st.stop_loss_prices.lookup s = some sl ∧
          (get_latest_price env st s true).1 ≤ sl))) ∧
    (q < 0 → ∀ o ∈ (monitor_positions cfg env st).submitted, o.symbol ≠ s) := by
  have hne : ¬((get_current_positions env st).positions.isEmpty = true) := by
    rw [List.isEmpty_iff]
    show ¬env.portfolio = []
    exact List.ne_nil_of_mem hmem
  have hmp : monitor_positions cfg env st =
      monitor_loop cfg env (get_current_positions env st) env.portfolio := by
    unfold monitor_positions
    rw [if_neg hne]
    rfl
  have hglp : (get_latest_price env (get_current_positions env st) s true).1 =
      (get_latest_price env st s true).1 :=
    get_latest_price_congr env st _ s true rfl
  constructor
  · intro hp
    have h := monitor_loop_mem cfg env env.portfolio (get_current_positions env st) s q
      hmem hnd hqual hq1 (by rw [hglp]; exact hp)
      (by show ∀ o ∈ st.submitted, _; rw [hsub]; intro o ho; exact absurd ho (List.not_mem_nil o))
    rw [hmp]
    rw [hglp] at h
    exact h
  · intro hqneg o ho
    rw [hmp] at ho
    rcases monitor_loop_submitted_sub cfg env env.portfolio _ ho with hin | ⟨pos, hmem2, hq0, heq⟩
    · show ¬_
      intro _
      have : o ∈ ([] : List OrderReq) := by
        rw [← hsub]
        exact hin
      exact absurd this (List.not_mem_nil o)
    · intro he
      have hps : pos.1 = s := by
        have := congrArg OrderReq.symbol heq
        simp only at this
        rw [he] at this
        exact this.symm
      have : pos.2 = q := by
        apply mem_fst_unique hnd _ hmem
        rw [← hps]
        exact hmem2
      rw [this] at hq0
      exact absurd hq0 (not_lt.mpr (le_of_lt hqneg))

/-- Environment for the stop-loss demonstrations: one long position of 10
AAPL shares, live price 40, and (for the C6 counterexample) a Sunday
date. -/
def env_stop : MarketEnv where
  qualify := fun _ => true
  ib_data_ok := fun _ => true
  last := fun _ => 40
  close := fun _ => 0
  bid := fun _ => 0
  ask := fun _ => 0
  yf_close := fun _ => none
  order_status := fun _ _ => "Filled"
  order_filled := fun _ _ => 10
  avg_fill_price := fun _ _ => 40
  portfolio := [("AAPL", 10)]
  net_liquidation := 10000
  stored_history := []
  earnings_date := fun _ => none
  valid_returns := []
  earnings_data_ok := true
  today := civil_to_days 2025 10 12
  time_min := 600
  epoch := 1000

/-- State holding a stored stop-loss price of 50 for AAPL. -/
def stop_state : Strategy := ⟨[], [("AAPL", 50)], [], [], [], []⟩

/-- C5 witness: with price 40 ≤ stop 50 on a long 10-share position the
pass submits the closing SELL. -/
theorem monitor_positions_stop_loss_iff_witness :
    (⟨"AAPL", Action.SELL, ((|(10 : ℚ)| : ℚ)).floor, "stop-loss"⟩ : OrderReq) ∈
      (monitor_positions cfg_demo env_stop stop_state).submitted := by
  have h := (monitor_positions_stop_loss_iff cfg_demo env_stop stop_state "AAPL" 10
    (by norm_num [env_stop]) (by norm_num [env_stop]) rfl rfl (by norm_num)).1
  have hp : (get_latest_price env_stop stop_state "AAPL" true).1 = 40 := by
    norm_num [get_latest_price, env_stop, stop_state, List.lookup]
  refine (h (by rw [hp]; norm_num)).mpr ⟨by norm_num, 50, ?_, by rw [hp]; norm_num⟩
  norm_num [stop_state, List.lookup]

/-! ### Holding-period scan lemmas -/

theorem exit_step_submitted_sub (cfg : Config) (env : MarketEnv) (st : Strategy)
    (pos : Symbol × ℚ) {o : OrderReq}
    (ho : o ∈ (exit_step cfg env st pos).submitted) :
    o ∈ st.submitted ∨ o.reason = "holding period end" := by
  revert ho
  unfold exit_step
  split
  · split
    · split
      · intro ho
        rcases place_order_submitted_sub cfg env st pos.1 Action.SELL |pos.2|
            "holding period end" true ho with hmem | heq
        · exact Or.inl hmem
        · rw [heq]
          exact Or.inr rfl
      · split
        · intro ho
          rcases place_order_submitted_sub cfg env st pos.1 Action.BUY |pos.2|
              "holding period end" true ho with hmem | heq
          · exact Or.inl hmem
          · rw [heq]
            exact Or.inr rfl
        · exact fun ho => Or.inl ho
    · exact fun ho => Or.inl ho
  · exact fun ho => Or.inl ho

theorem exit_loop_submitted_sub (cfg : Config) (env : MarketEnv) :
    ∀ (ps : List (Symbol × ℚ)) (st : Strategy) {o : OrderReq},
      o ∈ (exit_loop cfg env st ps).submitted →
      o ∈ st.submitted ∨ o.reason = "holding period end"
  | [], _, _, ho => Or.inl ho
  | pos :: rest, st, o, ho => by
    rcases exit_loop_submitted_sub cfg env rest (exit_step cfg env st pos) ho with
      hstep | hr
    · exact exit_step_submitted_sub cfg env st pos hstep
    · exact Or.inr hr

theorem check_exit_positions_submitted_sub (cfg : Config) (env : MarketEnv)
    (st : Strategy) {o : OrderReq}
    (ho : o ∈ (check_exit_positions cfg env st).submitted) :
    o ∈ st.submitted ∨ o.reason = "holding period end" := by
  revert ho
  unfold check_exit_positions
  dsimp only
  split
  · exact fun ho => Or.inl ho
  · exact fun ho => exit_loop_submitted_sub cfg env
      (get_current_positions env st).positions (get_current_positions env st) ho

theorem monitor_positions_submitted_sub (cfg : Config) (env : MarketEnv)
    (st : Strategy) {o : OrderReq}
    (ho : o ∈ (monitor_positions cfg env st).submitted) :
    o ∈ st.submitted ∨ o.reason = "stop-loss" := by
  revert ho
  unfold monitor_positions
  dsimp only
  split
  · exact fun ho => Or.inl ho
  · intro ho
    rcases monitor_loop_submitted_sub cfg env _ _ ho with hin | ⟨pos, _, _, heq⟩
    · exact Or.inl hin
    · rw [heq]
      exact Or.inr rfl

/-- Outside trading hours `execute_trades` returns its state untouched. -/
theorem execute_trades_not_can (cfg : Config) (env : MarketEnv) (st : Strategy)
    (long_stocks short_stocks : List Symbol)
    (h : (can_trade_now env).1 = false) :
    execute_trades cfg env st long_stocks short_stocks = st := by
  unfold execute_trades
  rw [h]
  rfl

/-! ## C6 -/

/-- C6 counterexample: on Sunday 2025-10-12 `can_trade_now` is false, yet
one `run` cycle over a long AAPL position with a breached stop still
submits the stop-loss SELL — the session gate only covers
`execute_trades`, not the monitoring and exit passes. -/
theorem run_submits_exit_when_market_closed :
    (can_trade_now env_stop).1 = false ∧
      (run cfg_demo env_stop stop_state).2.submitted =
        [⟨"AAPL", Action.SELL, 10, "stop-loss"⟩] ∧
      ([⟨"AAPL", Action.SELL, 10, "stop-loss"⟩] : List OrderReq) ≠ [] := by
  refine ⟨?_, ?_, by simp⟩
  · norm_num [can_trade_now, is_trading_day, weekday, civil_to_days, env_stop]
  · norm_num [run, select_stocks, sorted_returns, execute_trades, can_trade_now,
      is_trading_day, weekday, civil_to_days, us_holidays_2025, monitor_positions,
      monitor_loop, monitor_step, get_current_positions, check_exit_positions,
      exit_loop, exit_step, get_latest_price, place_order, check_stop_loss, dict_set,
      List.lookup, Rat.floor_def', env_stop, stop_state, cfg_demo, List.insertionSort]
    decide

/-- C6 amended: when trading is not permitted, the entry step
(`execute_trades`) is a no-op — no entry order, no state change — but
`run` still executes the stop-loss monitor and the holding-period exit
pass, so the only orders a closed-session cycle can submit are exit orders
(reason stop-loss or holding-period end). -/
theorem trading_gate_exits_still_run (cfg : Config) (env : MarketEnv) (st : Strategy)
    (long_stocks short_stocks : List Symbol)
    (h : (can_trade_now env).1 = false) :
    execute_trades cfg env st long_stocks short_stocks = st ∧
      ∀ o ∈ (run cfg env st).2.submitted, o ∈ st.submitted ∨
        o.reason = "stop-loss" ∨ o.reason = "holding period end" := by
  refine ⟨execute_trades_not_can cfg env st long_stocks short_stocks h, ?_⟩
  intro o ho
  unfold run at ho
  revert ho
  split
  · exact fun ho => Or.inl ho
  · dsimp only
    rw [execute_trades_not_can cfg env st _ _ h]
    intro ho
    rcases check_exit_positions_submitted_sub cfg env _ ho with hm | hr
    · rcases monitor_positions_submitted_sub cfg env _ hm with hin | hr
      · exact Or.inl hin
      · exact Or.inr (Or.inl hr)
    · exact Or.inr (Or.inr hr)

/-- C6 witness: the amended statement at the concrete Sunday
environment. -/
theorem trading_gate_exits_still_run_witness :
    execute_trades cfg_demo env_stop stop_state ["MSFT"] [] = stop_state ∧
      ∀ o ∈ (run cfg_demo env_stop stop_state).2.submitted,
        o ∈ stop_state.submitted ∨
        o.reason = "stop-loss" ∨ o.reason = "holding period end" :=
  trading_gate_exits_still_run cfg_demo env_stop stop_state ["MSFT"] []
    (by norm_num [can_trade_now, is_trading_day, weekday, civil_to_days, env_stop])

/-! ### Entry-loop lemmas -/

theorem can_buy_again_congr (cfg : Config) (env : MarketEnv) {st st' : Strategy}
    (s : Symbol) (h : st'.last_buy_time.lookup s = st.last_buy_time.lookup s) :
    can_buy_again cfg env st' s = can_buy_again cfg env st s := by
  unfold can_buy_again
  rw [h]

theorem entry_step_submitted_sub (cfg : Config) (env : MarketEnv)
    (capital_per_stock : ℚ) (lim : Bool) (action : Action) (reason : String)
    (st : Strategy) (symbol : Symbol) {o : OrderReq}
    (ho : o ∈ (entry_step cfg env capital_per_stock lim action reason st symbol).submitted) :
    o ∈ st.submitted ∨ o.symbol = symbol := by
  revert ho
  unfold entry_step
  dsimp only
  split
  · exact fun ho => Or.inl ho
  · split
    · exact fun ho => Or.inl ho
    · split
      · exact fun ho => Or.inl ho
      · split
        · exact fun ho => Or.inl ho
        · split
          · intro ho
            rw [get_latest_price_submitted env st symbol true] at ho
            exact Or.inl ho
          · split
            · intro ho
              rw [get_latest_price_submitted env st symbol true] at ho
              exact Or.inl ho
            · split
              all_goals intro ho
              all_goals
                rcases place_order_submitted_sub cfg env
                    (get_latest_price env st symbol true).2 symbol action _ reason lim
                    ho with hmem | heq
              · rw [get_latest_price_submitted env st symbol true] at hmem
                exact Or.inl hmem
              · rw [heq]; exact Or.inr rfl
              · rw [get_latest_price_submitted env st symbol true] at hmem
                exact Or.inl hmem
              · rw [heq]; exact Or.inr rfl

theorem entry_step_submitted_mono (cfg : Config) (env : MarketEnv)
    (capital_per_stock : ℚ) (lim : Bool) (action : Action) (reason : String)
    (st : Strategy) (symbol : Symbol) {o : OrderReq} (ho : o ∈ st.submitted) :
    o ∈ (entry_step cfg env capital_per_stock lim action reason st symbol).submitted := by
  unfold entry_step
  dsimp only
  split
  · exact ho
  · split
    · exact ho
    · split
      · exact ho
      · split
        · exact ho
        · split
          · rw [get_latest_price_submitted env st symbol true]; exact ho
          · split
            · rw [get_latest_price_submitted env st symbol true]; exact ho
            · have hmem : o ∈ (place_order cfg env
                  (get_latest_price env st symbol true).2 symbol action
                  (((capital_per_stock / (get_latest_price env st symbol true).1).floor : ℤ) : ℚ)
                  reason lim).2.submitted :=
                place_order_submitted_mono cfg env _ symbol action _ reason lim
                  (by rw [get_latest_price_submitted env st symbol true]; exact ho)
              split
              · exact hmem
              · exact hmem

theorem entry_step_positions (cfg : Config) (env : MarketEnv)
    (capital_per_stock : ℚ) (lim : Bool) (action : Action) (reason : String)
    (st : Strategy) (symbol : Symbol) :
    (entry_step cfg env capital_per_stock lim action reason st symbol).positions =
      st.positions := by
  unfold entry_step
  dsimp only
  repeat' split
  all_goals first
    | rfl
    | exact get_latest_price_positions env st symbol true
    | exact (place_order_positions cfg env _ symbol action _ reason lim).trans
        (get_latest_price_positions env st symbol true)

theorem entry_step_cache_other (cfg : Config) (env : MarketEnv)
    (capital_per_stock : ℚ) (lim : Bool) (action : Action) (reason : String)
    (st : Strategy) (symbol : Symbol) {s : Symbol} (h : s ≠ symbol) :
    (entry_step cfg env capital_per_stock lim action reason st symbol).price_cache.lookup s =
      st.price_cache.lookup s := by
  unfold entry_step
  dsimp only
  repeat' split
  all_goals first
    | rfl
    | exact get_latest_price_cache_other env st symbol true h
    | exact (place_order_cache_other cfg env _ symbol action _ reason lim h).trans
        (get_latest_price_cache_other env st symbol true h)

theorem entry_step_maps_other (cfg : Config) (env : MarketEnv)
    (capital_per_stock : ℚ) (lim : Bool) (action : Action) (reason : String)
    (st : Strategy) (symbol : Symbol) {s : Symbol} (h : s ≠ symbol) :
    (entry_step cfg env capital_per_stock lim action reason st symbol).last_buy_time.lookup s =
        st.last_buy_time.lookup s ∧
      (entry_step cfg env capital_per_stock lim action reason st symbol).stop_loss_prices.lookup s =
        st.stop_loss_prices.lookup s := by
  unfold entry_step
  dsimp only
  repeat' split
  all_goals first
    | exact ⟨rfl, rfl⟩
    | exact ⟨by rw [get_latest_price_last_buy env st symbol true],
        by rw [get_latest_price_stop_loss env st symbol true]⟩
    | exact ⟨((place_order_maps_other cfg env _ symbol action _ reason lim h).1).trans
          (by rw [get_latest_price_last_buy env st symbol true]),
        ((place_order_maps_other cfg env _ symbol action _ reason lim h).2).trans
          (by rw [get_latest_price_stop_loss env st symbol true])⟩

theorem entry_step_history_sub (cfg : Config) (env : MarketEnv)
    (capital_per_stock : ℚ) (lim : Bool) (action : Action) (reason : String)
    (st : Strategy) (symbol : Symbol) {r : TradeRecord}
    (hr : r ∈ (entry_step cfg env capital_per_stock lim action reason st symbol).trade_history) :
    r ∈ st.trade_history ∨ r.symbol = symbol := by
  revert hr
  unfold entry_step
  dsimp only
  repeat' split
  all_goals intro hr
  all_goals first
    | exact Or.inl hr
    | (rw [get_latest_price_history env st symbol true] at hr; exact Or.inl hr)
    | skip
  · -- record_trade branch: the appended record carries the processed symbol
    have hr' : r ∈ (place_order cfg env (get_latest_price env st symbol true).2 symbol
        action _ reason lim).2.trade_history ++
          [⟨env.today, symbol, action, _, _, _⟩] := hr
    rcases List.mem_append.mp hr' with hmem | hmem
    · rw [place_order_trade_history cfg env _ symbol action _ reason lim,
        get_latest_price_history env st symbol true] at hmem
      exact Or.inl hmem
    · right
      rcases List.mem_singleton.mp hmem with rfl
      rfl
  · have hr' : r ∈ (place_order cfg env (get_latest_price env st symbol true).2 symbol
        action _ reason lim).2.trade_history := hr
    rw [place_order_trade_history cfg env _ symbol action _ reason lim,
      get_latest_price_history env st symbol true] at hr'
    exact Or.inl hr'

/-- A symbol in cooldown is skipped before any price fetch or order. -/
theorem entry_step_skip_cooldown (cfg : Config) (env : MarketEnv)
    (capital_per_stock : ℚ) (lim : Bool) (action : Action) (reason : String)
    (st : Strategy) (symbol : Symbol)
    (h : can_buy_again cfg env st symbol = false) :
    entry_step cfg env capital_per_stock lim action reason st symbol = st := by
  unfold entry_step
  dsimp only
  split
  · rfl
  · split
    · rfl
    · split
      · rfl
      · rw [h]
        rfl

theorem rat_floor_intCast (n : ℤ) : ((n : ℚ)).floor = n := by
  rw [Rat.floor_def']
  simp

/-- When every per-symbol guard passes, the entry step submits exactly the
sized order. -/
theorem entry_step_fire (cfg : Config) (env : MarketEnv) (capital_per_stock : ℚ)
    (lim : Bool) (action : Action) (reason : String) (st : Strategy) (symbol : Symbol)
    (hsym : ¬symbol = "")
    (hheld : (match st.positions.lookup symbol with
              | some q => match action with
                          | Action.BUY => decide (0 < q)
                          | Action.SELL => decide (q < 0)
              | none => false) = false)
    (htraded : is_traded_today env st symbol (some action) = false)
    (hcool : can_buy_again cfg env st symbol = true)
    (hp : 0 < (get_latest_price env st symbol true).1)
    (hqty : 1 ≤ (capital_per_stock / (get_latest_price env st symbol true).1).floor)
    (hqual : env.qualify symbol = true) :
    (entry_step cfg env capital_per_stock lim action reason st symbol).submitted =
      st.submitted ++
        [⟨symbol, action, (capital_per_stock / (get_latest_price env st symbol true).1).floor,
          reason⟩] := by
  unfold entry_step
  dsimp only
  rw [if_neg hsym, if_neg (by rw [hheld]; exact Bool.false_ne_true),
    if_neg (by rw [htraded]; exact Bool.false_ne_true),
    if_neg (by rw [hcool]; simp), if_neg (not_le.mpr hp),
    if_neg (show ¬(capital_per_stock / (get_latest_price env st symbol true).1).floor ≤ 0 by
      omega)]
  have hhit : get_latest_price env (get_latest_price env st symbol true).2 symbol true =
      ((get_latest_price env st symbol true).1, (get_latest_price env st symbol true).2) :=
    get_latest_price_cache_hit env _ symbol true
      (get_latest_price_caches env st symbol true hp)
  have h1 : ¬(((capital_per_stock / (get_latest_price env st symbol true).1).floor : ℚ) ≤ 0) := by
    rw [not_le]
    exact_mod_cast lt_of_lt_of_le one_pos hqty
  have h2 : ¬((((capital_per_stock / (get_latest_price env st symbol true).1).floor : ℤ) : ℚ)).floor ≤ 0 := by
    rw [rat_floor_intCast]
    omega
  have h4 : ¬((get_latest_price env (get_latest_price env st symbol true).2 symbol true).1 ≤ 0) := by
    rw [hhit]
    exact not_le.mpr hp
  rw [place_order_submit_state cfg env _ symbol action _ reason lim h1 h2 hqual h4]
  dsimp only
  rw [rat_floor_intCast]
  split
  · split
    · show ((get_latest_price env (get_latest_price env st symbol true).2 symbol
          true).2.submitted ++ _) = _
      rw [hhit]
      dsimp only
      rw [get_latest_price_submitted env st symbol true]
    · show ((get_latest_price env (get_latest_price env st symbol true).2 symbol
          true).2.submitted ++ _) = _
      rw [hhit]
      dsimp only
      rw [get_latest_price_submitted env st symbol true]
  · split
    · show ((get_latest_price env (get_latest_price env st symbol true).2 symbol
          true).2.submitted ++ _) = _
      rw [hhit]
      dsimp only
      rw [get_latest_price_submitted env st symbol true]
    · show ((get_latest_price env (get_latest_price env st symbol true).2 symbol
          true).2.submitted ++ _) = _
      rw [hhit]
      dsimp only
      rw [get_latest_price_submitted env st symbol true]

theorem entry_loop_submitted_sub (cfg : Config) (env : MarketEnv)
    (capital_per_stock : ℚ) (lim : Bool) (action : Action) (reason : String) :
    ∀ (syms : List Symbol) (st : Strategy) {o : OrderReq},
      o ∈ (entry_loop cfg env capital_per_stock lim action reason st syms).submitted →
      o ∈ st.submitted ∨ o.symbol ∈ syms
  | [], _, _, ho => Or.inl ho
  | sym :: rest, st, o, ho => by
    rcases entry_loop_submitted_sub cfg env capital_per_stock lim action reason rest
        (entry_step cfg env capital_per_stock lim action reason st sym) ho with
      hstep | hr
    · rcases entry_step_submitted_sub cfg env capital_per_stock lim action reason st sym
          hstep with hin | heq
      · exact Or.inl hin
      · exact Or.inr (heq ▸ List.mem_cons_self _ _)
    · exact Or.inr (List.mem_cons_of_mem _ hr)

theorem entry_loop_submitted_mono (cfg : Config) (env : MarketEnv)
    (capital_per_stock : ℚ) (lim : Bool) (action : Action) (reason : String) :
    ∀ (syms : List Symbol) (st : Strategy) {o : OrderReq}, o ∈ st.submitted →
      o ∈ (entry_loop cfg env capital_per_stock lim action reason st syms).submitted
  | [], _, _, ho => ho
  | sym :: rest, st, o, ho =>
    entry_loop_submitted_mono cfg env capital_per_stock lim action reason rest
      (entry_step cfg env capital_per_stock lim action reason st sym)
      (entry_step_submitted_mono cfg env capital_per_stock lim action reason st sym ho)

theorem entry_loop_positions (cfg : Config) (env : MarketEnv)
    (capital_per_stock : ℚ) (lim : Bool) (action : Action) (reason : String) :
    ∀ (syms : List Symbol) (st : Strategy),
      (entry_loop cfg env capital_per_stock lim action reason st syms).positions =
        st.positions
  | [], _ => rfl
  | sym :: rest, st =>
    (entry_loop_positions cfg env capital_per_stock lim action reason rest _).trans
      (entry_step_positions cfg env capital_per_stock lim action reason st sym)

theorem entry_loop_cache_other (cfg : Config) (env : MarketEnv)
    (capital_per_stock : ℚ) (lim : Bool) (action : Action) (reason : String) :
    ∀ (syms : List Symbol) (st : Strategy) {s : Symbol}, s ∉ syms →
      (entry_loop cfg env capital_per_stock lim action reason st syms).price_cache.lookup s =
        st.price_cache.lookup s
  | [], _, _, _ => rfl
  | sym :: rest, st, s, hs => by
    have h1 : s ∉ rest := fun h => hs (List.mem_cons_of_mem _ h)
    have h2 : s ≠ sym := fun e => hs (e ▸ List.mem_cons_self _ _)
    exact (entry_loop_cache_other cfg env capital_per_stock lim action reason rest _
        h1).trans
      (entry_step_cache_other cfg env capital_per_stock lim action reason st sym h2)

theorem entry_loop_maps_other (cfg : Config) (env : MarketEnv)
    (capital_per_stock : ℚ) (lim : Bool) (action : Action) (reason : String) :
    ∀ (syms : List Symbol) (st : Strategy) {s : Symbol}, s ∉ syms →
      (entry_loop cfg env capital_per_stock lim action reason st syms).last_buy_time.lookup s =
          st.last_buy_time.lookup s ∧
        (entry_loop cfg env capital_per_stock lim action reason st syms).stop_loss_prices.lookup s =
          st.stop_loss_prices.lookup s
  | [], _, _, _ => ⟨rfl, rfl⟩
  | sym :: rest, st, s, hs => by
    have h1 : s ∉ rest := fun h => hs (List.mem_cons_of_mem _ h)
    have h2 : s ≠ sym := fun e => hs (e ▸ List.mem_cons_self _ _)
    have hloop := entry_loop_maps_other cfg env capital_per_stock lim action reason rest
      (entry_step cfg env capital_per_stock lim action reason st sym) h1
    have hstep := entry_step_maps_other cfg env capital_per_stock lim action reason st sym h2
    exact ⟨hloop.1.trans hstep.1, hloop.2.trans hstep.2⟩

theorem entry_loop_history_sub (cfg : Config) (env : MarketEnv)
    (capital_per_stock : ℚ) (lim : Bool) (action : Action) (reason : String) :
    ∀ (syms : List Symbol) (st : Strategy) {r : TradeRecord},
      r ∈ (entry_loop cfg env capital_per_stock lim action reason st syms).trade_history →
      r ∈ st.trade_history ∨ r.symbol ∈ syms
  | [], _, _, hr => Or.inl hr
  | sym :: rest, st, r, hr => by
    rcases entry_loop_history_sub cfg env capital_per_stock lim action reason rest
        (entry_step cfg env capital_per_stock lim action reason st sym) hr with
      hstep | hmem
    · rcases entry_step_history_sub cfg env capital_per_stock lim action reason st sym
          hstep with hin | heq
      · exact Or.inl hin
      · exact Or.inr (heq ▸ List.mem_cons_self _ _)
    · exact Or.inr (List.mem_cons_of_mem _ hmem)

/-- A symbol whose cooldown has not elapsed gets no order from the entry
loop, in either direction. -/
theorem entry_loop_no_order_cooldown (cfg : Config) (env : MarketEnv)
    (capital_per_stock : ℚ) (lim : Bool) (action : Action) (reason : String) :
    ∀ (syms : List Symbol) (st : Strategy) {s : Symbol},
      can_buy_again cfg env st s = false →
      ∀ o ∈ (entry_loop cfg env capital_per_stock lim action reason st syms).submitted,
        o ∈ st.submitted ∨ o.symbol ≠ s
  | [], _, _, _, _, ho => Or.inl ho
  | sym :: rest, st, s, hcool, o, ho => by
    have ho' : o ∈ (entry_loop cfg env capital_per_stock lim action reason
        (entry_step cfg env capital_per_stock lim action reason st sym) rest).submitted := ho
    by_cases he : sym = s
    · subst he
      rw [entry_step_skip_cooldown cfg env capital_per_stock lim action reason st sym
        hcool] at ho'
      exact entry_loop_no_order_cooldown cfg env capital_per_stock lim action reason rest
        st hcool o ho'
    · have hcool' : can_buy_again cfg env
          (entry_step cfg env capital_per_stock lim action reason st sym) s = false := by
        rw [can_buy_again_congr cfg env s
          (entry_step_maps_other cfg env capital_per_stock lim action reason st sym
            (fun e => he e.symm)).1]
        exact hcool
      rcases entry_loop_no_order_cooldown cfg env capital_per_stock lim action reason rest
          _ hcool' o ho' with hstep | hne
      · rcases entry_step_submitted_sub cfg env capital_per_stock lim action reason st sym
            hstep with hin | heq
        · exact Or.inl hin
        · exact Or.inr (by rw [heq]; exact he)
      · exact Or.inr hne

theorem entry_loop_cooldown_preserved (cfg : Config) (env : MarketEnv)
    (capital_per_stock : ℚ) (lim : Bool) (action : Action) (reason : String) :
    ∀ (syms : List Symbol) (st : Strategy) {s : Symbol},
      can_buy_again cfg env st s = false →
      can_buy_again cfg env
        (entry_loop cfg env capital_per_stock lim action reason st syms) s = false
  | [], _, _, h => h
  | sym :: rest, st, s, h => by
    show can_buy_again cfg env (entry_loop cfg env capital_per_stock lim action reason
      (entry_step cfg env capital_per_stock lim action reason st sym) rest) s = false
    by_cases he : sym = s
    · subst he
      rw [entry_step_skip_cooldown cfg env capital_per_stock lim action reason st sym h]
      exact entry_loop_cooldown_preserved cfg env capital_per_stock lim action reason rest
        st h
    · apply entry_loop_cooldown_preserved cfg env capital_per_stock lim action reason rest
      rw [can_buy_again_congr cfg env s
        (entry_step_maps_other cfg env capital_per_stock lim action reason st sym
          (fun e => he e.symm)).1]
      exact h

/-- A candidate that passes every guard has its sized order on the trace
after the loop. -/
theorem entry_loop_mem (cfg : Config) (env : MarketEnv) (capital_per_stock : ℚ)
    (lim : Bool) (action : Action) (reason : String) :
    ∀ (syms : List Symbol) (st : Strategy) (s : Symbol),
      s ∈ syms → syms.Nodup → ¬s = "" →
      (match st.positions.lookup s with
       | some q => match action with
                   | Action.BUY => decide (0 < q)
                   | Action.SELL => decide (q < 0)
       | none => false) = false →
      is_traded_today env st s (some action) = false →
      can_buy_again cfg env st s = true →
      0 < (get_latest_price env st s true).1 →
      1 ≤ (capital_per_stock / (get_latest_price env st s true).1).floor →
      env.qualify s = true →
      (⟨s, action, (capital_per_stock / (get_latest_price env st s true).1).floor,
          reason⟩ : OrderReq) ∈
        (entry_loop cfg env capital_per_stock lim action reason st syms).submitted
  | [], _, _, hmem, _, _, _, _, _, _, _, _ => absurd hmem (List.not_mem_nil _)
  | sym :: rest, st, s, hmem, hnd, hsym, hheld, htraded, hcool, hp, hqty, hqual => by
    rw [List.nodup_cons] at hnd
    show _ ∈ (entry_loop cfg env capital_per_stock lim action reason
      (entry_step cfg env capital_per_stock lim action reason st sym) rest).submitted
    rcases List.mem_cons.mp hmem with he | hmem'
    · subst he
      have hfire := entry_step_fire cfg env capital_per_stock lim action reason st s
        hsym hheld htraded hcool hp hqty hqual
      apply entry_loop_submitted_mono
      rw [hfire]
      exact List.mem_append_right _ (List.mem_singleton.mpr rfl)
    · have hne : s ≠ sym := fun e => hnd.1 (e ▸ hmem')
      set st' := entry_step cfg env capital_per_stock lim action reason st sym with hst'
      have hpos : st'.positions = st.positions :=
        entry_step_positions cfg env capital_per_stock lim action reason st sym
      have hmaps := entry_step_maps_other cfg env capital_per_stock lim action reason st
        sym hne
      have hcache := entry_step_cache_other cfg env capital_per_stock lim action reason st
        sym hne
      have hglp : (get_latest_price env st' s true).1 = (get_latest_price env st s true).1 :=
        get_latest_price_congr env st st' s true hcache
      have htraded' : is_traded_today env st' s (some action) = false := by
        rw [is_traded_today_some_false_iff]
        intro r hr hprop
        rcases entry_step_history_sub cfg env capital_per_stock lim action reason st sym
            hr with hin | hsymr
        · exact (is_traded_today_some_false_iff env st s action).mp htraded r hin hprop
        · exact hne (hprop.2.1 ▸ hsymr.symm).symm
      have hcool' : can_buy_again cfg env st' s = true := by
        rw [can_buy_again_congr cfg env s hmaps.1]
        exact hcool
      have ih := entry_loop_mem cfg env capital_per_stock lim action reason rest st' s
        hmem' hnd.2 hsym (by rw [hpos]; exact hheld) htraded' hcool'
        (by rw [hglp]; exact hp) (by rw [hglp]; exact hqty) hqual
      rw [hglp] at ih
      exact ih

/-- `execute_trades` on an open session with candidates and positive net
liquidation is the two entry loops over the refreshed, reloaded state. -/
theorem execute_trades_open (cfg : Config) (env : MarketEnv) (st : Strategy)
    (long_stocks short_stocks : List Symbol)
    (hcan : (can_trade_now env).1 = true)
    (hne : ¬(long_stocks.isEmpty ∧ short_stocks.isEmpty))
    (hnet : ¬env.net_liquidation ≤ 0) :
    execute_trades cfg env st long_stocks short_stocks =
      entry_loop cfg env
        (if !short_stocks.isEmpty then
          env.net_liquidation * (3/10) * (1/2) / (max short_stocks.length 1 : ℚ) else 0)
        (!is_regular_hours env) Action.SELL "earnings-short"
        (entry_loop cfg env
          (if !long_stocks.isEmpty then
            env.net_liquidation * (3/10) * (1/2) / (max long_stocks.length 1 : ℚ) else 0)
          (!is_regular_hours env) Action.BUY "earnings-long"
          (load_trade_history env (get_current_positions env st)) long_stocks)
        short_stocks := by
  unfold execute_trades
  rw [hcan]
  rw [if_neg (by simp)]
  rw [if_neg hne]
  rw [if_neg hnet]

/-- `execute_trades` leaves the state as refreshed when the session gate
passes but net liquidation is non-positive. -/
theorem execute_trades_zero_netliq (cfg : Config) (env : MarketEnv) (st : Strategy)
    (long_stocks short_stocks : List Symbol)
    (hcan : (can_trade_now env).1 = true)
    (hne : ¬(long_stocks.isEmpty ∧ short_stocks.isEmpty))
    (hnet : env.net_liquidation ≤ 0) :
    execute_trades cfg env st long_stocks short_stocks =
      get_current_positions env st := by
  unfold execute_trades
  rw [hcan]
  rw [if_neg (by simp)]
  rw [if_neg hne]
  rw [if_pos hnet]

/-! ## C7 -/

/-- Open-session environment: Monday 2025-10-13 at 10:00, every symbol
qualified and quoted at 50, one irrelevant broker position, zero net
liquidation. -/
def env_zero : MarketEnv where
  qualify := fun _ => true
  ib_data_ok := fun _ => true
  last := fun _ => 50
  close := fun _ => 0
  bid := fun _ => 0
  ask := fun _ => 0
  yf_close := fun _ => none
  order_status := fun _ _ => "Filled"
  order_filled := fun _ _ => 30
  avg_fill_price := fun _ _ => 50
  portfolio := [("X", 5)]
  net_liquidation := 0
  stored_history := []
  earnings_date := fun _ => none
  valid_returns := []
  earnings_data_ok := true
  today := civil_to_days 2025 10 13
  time_min := 600
  epoch := 1000

/-- The same environment with a positive account. -/
def env_entry : MarketEnv :=
  { env_zero with portfolio := [], net_liquidation := 10000 }

/-- C7 counterexample: with net liquidation 0 `execute_trades` submits
nothing but does NOT leave the engine state unchanged — the broker
position refresh performed before the net-liquidation check has already
replaced `positions`. -/
theorem execute_trades_netliq_zero_counterexample :
    env_zero.net_liquidation ≤ 0 ∧
      (execute_trades cfg_demo env_zero init_state ["AAPL"] []).positions = [("X", 5)] ∧
      (execute_trades cfg_demo env_zero init_state ["AAPL"] []).submitted = [] ∧
      init_state.positions = [] ∧
      execute_trades cfg_demo env_zero init_state ["AAPL"] [] ≠ init_state := by
  refine ⟨by norm_num [env_zero], ?_, ?_, rfl, ?_⟩
  · decide
  · decide
  · intro h
    have h2 := congrArg Strategy.positions h
    have h3 : (execute_trades cfg_demo env_zero init_state ["AAPL"] []).positions =
        [("X", 5)] := by decide
    rw [h3] at h2
    simp [init_state] at h2

/-- C7 amended: `execute_trades` sizes each entry order through
`netLiquidation × 0.3`, a 0.5/0.5 long/short split, and division by
`max(count, 1)`; and when `netLiquidation ≤ 0` it submits no orders and —
beyond the broker position refresh it has already performed — changes no
state. -/
theorem execute_trades_allocation (cfg : Config) (env : MarketEnv) (st : Strategy)
    (long_stocks short_stocks : List Symbol) (s : Symbol) :
    ((can_trade_now env).1 = true → ¬(long_stocks.isEmpty ∧ short_stocks.isEmpty) →
      env.net_liquidation ≤ 0 →
      execute_trades cfg env st long_stocks short_stocks =
        { st with positions := env.portfolio }) ∧
    ((can_trade_now env).1 = true → ¬env.net_liquidation ≤ 0 →
      s ∈ long_stocks → long_stocks.Nodup → ¬s = "" →
      (match env.portfolio.lookup s with
       | some q => decide (0 < q)
       | none => false) = false →
      (∀ r ∈ env.stored_history,
        ¬(r.date = env.today ∧ r.symbol = s ∧ r.action = Action.BUY)) →
      can_buy_again cfg env st s = true →
      0 < (get_latest_price env st s true).1 →
      1 ≤ ((env.net_liquidation * (3/10) * (1/2) / (max long_stocks.length 1 : ℚ)) /
        (get_latest_price env st s true).1).floor →
      env.qualify s = true →
      (⟨s, Action.BUY,
          ((env.net_liquidation * (3/10) * (1/2) / (max long_stocks.length 1 : ℚ)) /
            (get_latest_price env st s true).1).floor, "earnings-long"⟩ : OrderReq) ∈
        (execute_trades cfg env st long_stocks short_stocks).submitted) ∧
    ((can_trade_now env).1 = true → ¬env.net_liquidation ≤ 0 →
      s ∈ short_stocks → short_stocks.Nodup → s ∉ long_stocks → ¬s = "" →
      (match env.portfolio.lookup s with
       | some q => decide (q < 0)
       | none => false) = false →
      (∀ r ∈ env.stored_history,
        ¬(r.date = env.today ∧ r.symbol = s ∧ r.action = Action.SELL)) →
      can_buy_again cfg env st s = true →
      0 < (get_latest_price env st s true).1 →
      1 ≤ ((env.net_liquidation * (3/10) * (1/2) / (max short_stocks.length 1 : ℚ)) /
        (get_latest_price env st s true).1).floor →
      env.qualify s = true →
      (⟨s, Action.SELL,
          ((env.net_liquidation * (3/10) * (1/2) / (max short_stocks.length 1 : ℚ)) /
            (get_latest_price env st s true).1).floor, "earnings-short"⟩ : OrderReq) ∈
        (execute_trades cfg env st long_stocks short_stocks).submitted) := by
  refine ⟨?_, ?_, ?_⟩
  · intro hcan hne hnet
    exact execute_trades_zero_netliq cfg env st long_stocks short_stocks hcan hne hnet
  · intro hcan hnet hs hnd hsym hheld htraded hcool hp hqty hqual
    have hlsne : long_stocks.isEmpty = false := by
      cases long_stocks with
      | nil => exact absurd hs (List.not_mem_nil _)
      | cons a l => rfl
    have hne : ¬(long_stocks.isEmpty ∧ short_stocks.isEmpty) := by
      intro h
      rw [hlsne] at h
      exact Bool.false_ne_true h.1
    rw [execute_trades_open cfg env st long_stocks short_stocks hcan hne hnet]
    have hcap : (if !long_stocks.isEmpty then
        env.net_liquidation * (3/10) * (1/2) / (max long_stocks.length 1 : ℚ) else 0) =
        env.net_liquidation * (3/10) * (1/2) / (max long_stocks.length 1 : ℚ) := by
      rw [hlsne]
      rfl
    rw [hcap]
    apply entry_loop_submitted_mono
    set st2 := load_trade_history env (get_current_positions env st) with hst2
    have hcache2 : st2.price_cache.lookup s = st.price_cache.lookup s := rfl
    have hglp2 : (get_latest_price env st2 s true).1 = (get_latest_price env st s true).1 :=
      get_latest_price_congr env st st2 s true hcache2
    have h := entry_loop_mem cfg env
      (env.net_liquidation * (3/10) * (1/2) / (max long_stocks.length 1 : ℚ))
      (!is_regular_hours env) Action.BUY "earnings-long" long_stocks st2 s hs hnd hsym
      (by exact hheld)
      (by
        rw [is_traded_today_some_false_iff]
        intro r hr hprop
        exact htraded r hr hprop)
      (by rw [can_buy_again_congr cfg env s rfl]; exact hcool)
      (by rw [hglp2]; exact hp)
      (by rw [hglp2]; exact hqty)
      hqual
    rw [hglp2] at h
    exact h
  · intro hcan hnet hs hnd hsl hsym hheld htraded hcool hp hqty hqual
    have hssne : short_stocks.isEmpty = false := by
      cases short_stocks with
      | nil => exact absurd hs (List.not_mem_nil _)
      | cons a l => rfl
    have hne : ¬(long_stocks.isEmpty ∧ short_stocks.isEmpty) := by
      intro h
      rw [hssne] at h
      exact Bool.false_ne_true h.2
    rw [execute_trades_open cfg env st long_stocks short_stocks hcan hne hnet]
    have hcap : (if !short_stocks.isEmpty then
        env.net_liquidation * (3/10) * (1/2) / (max short_stocks.length 1 : ℚ) else 0) =
        env.net_liquidation * (3/10) * (1/2) / (max short_stocks.length 1 : ℚ) := by
      rw [hssne]
      rfl
    rw [hcap]
    set st2 := load_trade_history env (get_current_positions env st) with hst2
    set stL := entry_loop cfg env
      (if !long_stocks.isEmpty then
        env.net_liquidation * (3/10) * (1/2) / (max long_stocks.length 1 : ℚ) else 0)
      (!is_regular_hours env) Action.BUY "earnings-long" st2 long_stocks with hstL
    have hposL : stL.positions = env.portfolio := by
      rw [hstL, entry_loop_positions, hst2]
      exact rfl
    have hcacheL : stL.price_cache.lookup s = st.price_cache.lookup s := by
      rw [hstL, entry_loop_cache_other cfg env _ _ _ _ long_stocks st2 hsl, hst2]
      exact rfl
    have hglpL : (get_latest_price env stL s true).1 = (get_latest_price env st s true).1 :=
      get_latest_price_congr env st stL s true hcacheL
    have hmapsL := entry_loop_maps_other cfg env
      (if !long_stocks.isEmpty then
        env.net_liquidation * (3/10) * (1/2) / (max long_stocks.length 1 : ℚ) else 0)
      (!is_regular_hours env) Action.BUY "earnings-long" long_stocks st2 hsl
    have h := entry_loop_mem cfg env
      (env.net_liquidation * (3/10) * (1/2) / (max short_stocks.length 1 : ℚ))
      (!is_regular_hours env) Action.SELL "earnings-short" short_stocks stL s hs hnd hsym
      (by rw [hposL]; exact hheld)
      (by
        rw [is_traded_today_some_false_iff]
        intro r hr hprop
        rcases entry_loop_history_sub cfg env _ _ _ _ long_stocks st2 hr with hin | hsymr
        · exact htraded r hin hprop
        · exact hsl (hprop.2.1 ▸ hsymr))
      (by
        rw [can_buy_again_congr cfg env s hmapsL.1, can_buy_again_congr cfg env s rfl]
        exact hcool)
      (by rw [hglpL]; exact hp)
      (by rw [hglpL]; exact hqty)
      hqual
    rw [hglpL] at h
    exact h

/-- C7 witness: the zero-net-liquidation frame at `env_zero` and the sized
BUY and SELL orders at `env_entry` (10000 × 0.3 × 0.5 / 1 = 1500 per
symbol; 1500 / 50 = 30 shares). -/
theorem execute_trades_allocation_witness :
    execute_trades cfg_demo env_zero init_state ["AAPL"] [] =
        { init_state with positions := env_zero.portfolio } ∧
      (⟨"AAPL", Action.BUY,
          ((env_entry.net_liquidation * (3/10) * (1/2) / (max (["AAPL"] : List Symbol).length 1 : ℚ)) /
            (get_latest_price env_entry init_state "AAPL" true).1).floor,
          "earnings-long"⟩ : OrderReq) ∈
        (execute_trades cfg_demo env_entry init_state ["AAPL"] []).submitted ∧
      (⟨"TSLA", Action.SELL,
          ((env_entry.net_liquidation * (3/10) * (1/2) / (max (["TSLA"] : List Symbol).length 1 : ℚ)) /
            (get_latest_price env_entry init_state "TSLA" true).1).floor,
          "earnings-short"⟩ : OrderReq) ∈
        (execute_trades cfg_demo env_entry init_state [] ["TSLA"]).submitted :=
  ⟨(execute_trades_allocation cfg_demo env_zero init_state ["AAPL"] [] "AAPL").1
      (by decide) (by decide) (by norm_num [env_zero]),
   (execute_trades_allocation cfg_demo env_entry init_state ["AAPL"] [] "AAPL").2.1
      (by decide) (by norm_num [env_entry, env_zero]) (by decide) (by decide) (by decide)
      (by decide) (by intro r hr hprop; exact absurd hr (List.not_mem_nil r))
      rfl
      (by norm_num [get_latest_price, env_entry, env_zero, init_state, List.lookup])
      (by norm_num [get_latest_price, env_entry, env_zero, init_state, List.lookup,
        Rat.floor_def'])
      (by decide),
   (execute_trades_allocation cfg_demo env_entry init_state [] ["TSLA"] "TSLA").2.2
      (by decide) (by norm_num [env_entry, env_zero]) (by decide) (by decide) (by decide)
      (by decide) (by decide)
      (by intro r hr hprop; exact absurd hr (List.not_mem_nil r))
      rfl
      (by norm_num [get_latest_price, env_entry, env_zero, init_state, List.lookup])
      (by norm_num [get_latest_price, env_entry, env_zero, init_state, List.lookup,
        Rat.floor_def'])
      (by decide)⟩

/-! ## C10 -/

theorem execute_trades_no_candidates (cfg : Config) (env : MarketEnv) (st : Strategy)
    (long_stocks short_stocks : List Symbol)
    (hcan : (can_trade_now env).1 = true)
    (hempty : long_stocks.isEmpty ∧ short_stocks.isEmpty) :
    execute_trades cfg env st long_stocks short_stocks =
      get_current_positions env st := by
  unfold execute_trades
  rw [hcan]
  rw [if_neg (by simp)]
  rw [if_pos hempty]

/-- C10: the short entry loop checks the same `can_buy_again` cooldown as
the long loop, so a cooldown started by a previous BUY fill suppresses new
entries — including SELL entries — in that symbol; and `place_order` never
sets a cooldown timestamp on a SELL, so only BUY fills start it. -/
theorem cooldown_blocks_short_entries (cfg : Config) (env : MarketEnv) (st : Strategy)
    (long_stocks short_stocks : List Symbol) (s : Symbol) :
    (∀ (sym : Symbol) (quantity : ℚ) (reason : String) (lim : Bool),
      (place_order cfg env st sym Action.SELL quantity reason lim).2.last_buy_time =
        st.last_buy_time) ∧
    (can_buy_again cfg env st s = false →
      ∀ o ∈ (execute_trades cfg env st long_stocks short_stocks).submitted,
        o ∈ st.submitted ∨ o.symbol ≠ s) := by
  constructor
  · intro sym quantity reason lim
    exact (place_order_not_buy_maps cfg env st sym quantity reason lim).1
  · intro hcool o ho
    by_cases hcan : (can_trade_now env).1 = true
    · by_cases hempty : long_stocks.isEmpty ∧ short_stocks.isEmpty
      · rw [execute_trades_no_candidates cfg env st long_stocks short_stocks hcan
          hempty] at ho
        exact Or.inl ho
      · by_cases hnet : env.net_liquidation ≤ 0
        · rw [execute_trades_zero_netliq cfg env st long_stocks short_stocks hcan hempty
            hnet] at ho
          exact Or.inl ho
        · rw [execute_trades_open cfg env st long_stocks short_stocks hcan hempty hnet]
            at ho
          have hcool2 : can_buy_again cfg env
              (load_trade_history env (get_current_positions env st)) s = false := by
            rw [can_buy_again_congr cfg env s rfl]
            exact hcool
          have hcoolL := entry_loop_cooldown_preserved cfg env
            (if !long_stocks.isEmpty then
              env.net_liquidation * (3/10) * (1/2) / (max long_stocks.length 1 : ℚ) else 0)
            (!is_regular_hours env) Action.BUY "earnings-long" long_stocks
            (load_trade_history env (get_current_positions env st)) hcool2
          rcases entry_loop_no_order_cooldown cfg env _ _ Action.SELL "earnings-short"
              short_stocks _ hcoolL o ho with h1 | hne'
          · rcases entry_loop_no_order_cooldown cfg env _ _ Action.BUY "earnings-long"
                long_stocks _ hcool2 o h1 with h2 | hne'
            · exact Or.inl h2
            · exact Or.inr hne'
          · exact Or.inr hne'
    · have hcanf : (can_trade_now env).1 = false := by
        cases h : (can_trade_now env).1
        · rfl
        · exact absurd h hcan
      rw [execute_trades_not_can cfg env st long_stocks short_stocks hcanf] at ho
      exact Or.inl ho

/-- State in which AAPL was bought 100 seconds ago (epoch 900 against
environment epoch 1000), far inside the 10-day cooldown. -/
def cool_state : Strategy := ⟨[], [], [("AAPL", 900)], [], [], []⟩

/-- C10 witness: the SELL frame on a concrete order, and a short candidate
in cooldown producing no AAPL order on an otherwise open session. -/
theorem cooldown_blocks_short_entries_witness :
    (place_order cfg_demo env_entry cool_state "AAPL" Action.SELL 10 "entry"
        true).2.last_buy_time = cool_state.last_buy_time ∧
      can_buy_again cfg_demo env_entry cool_state "AAPL" = false ∧
      ∀ o ∈ (execute_trades cfg_demo env_entry cool_state [] ["AAPL"]).submitted,
        o ∈ cool_state.submitted ∨ o.symbol ≠ "AAPL" := by
  have hcool : can_buy_again cfg_demo env_entry cool_state "AAPL" = false := by
    norm_num [can_buy_again, cool_state, env_entry, env_zero, cfg_demo, List.lookup]
  exact ⟨(cooldown_blocks_short_entries cfg_demo env_entry cool_state [] ["AAPL"]
      "AAPL").1 "AAPL" 10 "entry" true,
    hcool,
    (cooldown_blocks_short_entries cfg_demo env_entry cool_state [] ["AAPL"] "AAPL").2
      hcool⟩

end Report0422
